import Mathlib

/-!
A verification development for the SmartCalendar scheduling and persona
engine.  JavaScript strings are embedded as lists of characters, local
timestamps as integer minutes since an arbitrary local epoch, and `HH:MM`
wall-clock times as integer minutes-of-day.  Scores and routine
confidences are integers, confidences counted in hundredths (the analyzer
rounds confidences to two decimals, so this scaling is exact).
-/

abbrev Str := List Char

/-- JavaScript `String.prototype.split` with a single-character separator. -/
def splitOnChar (sep : Char) : Str → List Str
  | [] => [[]]
  | c :: cs =>
    match splitOnChar sep cs with
    | [] => [[c]]
    | p :: ps => if c = sep then [] :: p :: ps else (c :: p) :: ps

/-- Lexicographic strict comparison of JavaScript strings (`a < b`). -/
def strLtb : Str → Str → Bool
  | [], [] => false
  | [], _ :: _ => true
  | _ :: _, [] => false
  | a :: as, b :: bs => if a < b then true else if b < a then false else strLtb as bs

/-- Lexicographic `a <= b` on JavaScript strings. -/
def strLeb (a b : Str) : Bool := !(strLtb b a)

/-- JavaScript `needle.isPrefix-like` helper: does `pat` start `text`? -/
def strStarts : Str → Str → Bool
  | [], _ => true
  | _ :: _, [] => false
  | p :: ps, c :: cs => p = c && strStarts ps cs

/-- JavaScript `text.includes(pat)`: substring containment. -/
def strIncludes (text pat : Str) : Bool :=
  match text with
  | [] => pat.isEmpty
  | c :: cs => strStarts pat (c :: cs) || strIncludes cs pat

/-- JavaScript `String.prototype.toLowerCase`, ASCII range (titles and
keywords in this code base are ASCII or Korean; Korean is unaffected). -/
def strLower (s : Str) : Str := s.map Char.toLower

/- ════════════════ Interval analysis model (C1, C2, C5, C6) ════════════════ -/

/-- Calendar event as consumed by the analysis/query/recommend tools
(src/shared/types.ts `Event`); `start`/`end` are local timestamps
embedded as integer minutes. -/
structure CalEvent where
  id : Str
  title : Str
  start : Int
  «end» : Int
  category : Str
  tags : List Str
  is_movable : Bool
  priority : Int
deriving Repr, DecidableEq

/-- `DexieCalendar.getEvents` without the optional category/tag filters
(src/data/calendar.ts lines 24-47): keep rows with
`start <= endDate && end >= startDate`.  Dexie walks the `start` index, so
the store list is taken in start order and the filter preserves it. -/
def dexieGetEventsInt (store : List CalEvent) (startDate endDate : Int) : List CalEvent :=
  store.filter (fun e => e.start ≤ endDate && startDate ≤ e.«end»)

/-- `checkConflicts` (src/tools/analysis.ts lines 7-35): fetch a window
widened by 24 hours on both sides, then keep events passing the strict
open-interval overlap test `event.start < end && event.end > start`. -/
def checkConflicts (store : List CalEvent) (start «end» : Int) : List CalEvent :=
  let windowStart := start - 24 * 60
  let windowEnd := «end» + 24 * 60
  let allEvents := dexieGetEventsInt store windowStart windowEnd
  allEvents.filter (fun e => e.start < «end» && e.«end» > start)

/-- The spec's running example: a 09:00-10:00 meeting on 2026-02-16
(minutes-of-day embedding with the day at offset 0). -/
def demoEvent : CalEvent :=
  { id := "evt_1".toList, title := "meeting".toList, start := 540, «end» := 600,
    category := "meeting".toList, tags := [], is_movable := true, priority := 3 }

/-- C1: an event in the store is reported by `checkConflicts(start, end)`
iff `E.start < end ∧ E.end > start` (strict open-interval overlap); events
touching either query boundary are not reported; and against the store
holding only the 09:00-10:00 event of 2026-02-16, the query
09:30-10:30 returns exactly that event. -/
theorem checkConflicts_strict_overlap (store : List CalEvent) (s t : Int) (E : CalEvent)
    (hE : E ∈ store) :
    (E ∈ checkConflicts store s t ↔ E.start < t ∧ E.«end» > s)
    ∧ (E.«end» = s → E ∉ checkConflicts store s t)
    ∧ (E.start = t → E ∉ checkConflicts store s t)
    ∧ checkConflicts [demoEvent] 570 630 = [demoEvent] := by
  have hiff : E ∈ checkConflicts store s t ↔ E.start < t ∧ E.«end» > s := by
    constructor
    · intro h
      simp only [checkConflicts, dexieGetEventsInt, List.mem_filter,
        Bool.and_eq_true, decide_eq_true_eq] at h
      exact ⟨h.2.1, h.2.2⟩
    · intro h
      simp only [checkConflicts, dexieGetEventsInt, List.mem_filter,
        Bool.and_eq_true, decide_eq_true_eq]
      refine ⟨⟨hE, ?_, ?_⟩, h.1, h.2⟩ <;> omega
  refine ⟨hiff, ?_, ?_, by decide⟩
  · intro he hmem
    have := hiff.mp hmem
    omega
  · intro he hmem
    have := hiff.mp hmem
    omega

/-- Concrete instantiation of `checkConflicts_strict_overlap`. -/
theorem checkConflicts_strict_overlap_witness :
    (demoEvent ∈ [demoEvent])
    ∧ ((demoEvent ∈ checkConflicts [demoEvent] 570 630 ↔
          demoEvent.start < 630 ∧ demoEvent.«end» > 570)
      ∧ (demoEvent.«end» = 570 → demoEvent ∉ checkConflicts [demoEvent] 570 630)
      ∧ (demoEvent.start = 630 → demoEvent ∉ checkConflicts [demoEvent] 570 630)
      ∧ checkConflicts [demoEvent] 570 630 = [demoEvent]) :=
  ⟨by decide, checkConflicts_strict_overlap [demoEvent] 570 630 demoEvent (by decide)⟩

/- ════════════════ Free-slot search (C2) ════════════════ -/

/-- Engine-computed free gap (src/shared/types.ts `TimeSlot`). -/
structure TimeSlot where
  start : Int
  «end» : Int
deriving Repr, DecidableEq

/-- Slot-emission part of the `getFreeSlots` sweep (src/tools/query.ts
lines 62-82): walking the day's events with a cursor, emit
`{cursor, event.start}` whenever the gap in front of an event is at least
`durationMinutes`, then advance the cursor to `max(cursor, event.end)`.
The source computes slots and cursor in one loop; here the loop is split
into this slot pass and the cursor pass `sweepCursor`. -/
def sweepSlots (durationMinutes : Int) : List CalEvent → Int → List TimeSlot
  | [], _ => []
  | ev :: rest, cursor =>
    (if ev.start > cursor ∧ ev.start - cursor ≥ durationMinutes then
        [{ start := cursor, «end» := ev.start }]
      else [])
      ++ sweepSlots durationMinutes rest (if ev.«end» > cursor then ev.«end» else cursor)

/-- Cursor part of the `getFreeSlots` sweep: `cursor := max(cursor, event.end)`
over the day's events. -/
def sweepCursor : List CalEvent → Int → Int
  | [], cursor => cursor
  | ev :: rest, cursor => sweepCursor rest (if ev.«end» > cursor then ev.«end» else cursor)

/-- `getFreeSlots` (src/tools/query.ts lines 38-97) after the day window
has been resolved to `[dayStart, dayEnd]` minutes: the sweep over the
fetched events plus the trailing slot after the last event. -/
def getFreeSlots (events : List CalEvent) (dayStart dayEnd durationMinutes : Int) :
    List TimeSlot :=
  let finalCursor := sweepCursor events dayStart
  sweepSlots durationMinutes events dayStart
    ++ (if finalCursor < dayEnd ∧ dayEnd - finalCursor ≥ durationMinutes then
          [{ start := finalCursor, «end» := dayEnd }]
        else [])

theorem sweepCursor_ge (evs : List CalEvent) (c : Int) : c ≤ sweepCursor evs c := by
  induction evs generalizing c with
  | nil => simp [sweepCursor]
  | cons ev rest ih =>
    simp only [sweepCursor]
    calc c ≤ (if ev.«end» > c then ev.«end» else c) := by split <;> omega
      _ ≤ sweepCursor rest _ := ih _

theorem sweepCursor_ge_ends (evs : List CalEvent) (c : Int) :
    ∀ e ∈ evs, e.«end» ≤ sweepCursor evs c := by
  induction evs generalizing c with
  | nil => simp
  | cons ev rest ih =>
    intro e he
    simp only [List.mem_cons] at he
    simp only [sweepCursor]
    rcases he with rfl | he
    · calc e.«end» ≤ (if e.«end» > c then e.«end» else c) := by split <;> omega
        _ ≤ sweepCursor rest _ := sweepCursor_ge rest _
    · exact ih _ e he

theorem sweepSlots_sound (d : Int) (evs : List CalEvent)
    (hsort : evs.Pairwise (fun a b => a.start ≤ b.start)) (c : Int) :
    ∀ s ∈ sweepSlots d evs c,
      c ≤ s.start ∧ d ≤ s.«end» - s.start ∧ (∃ e ∈ evs, s.«end» = e.start) ∧
      ∀ e ∈ evs, ∀ t : Int, s.start ≤ t → t < s.«end» → ¬(e.start ≤ t ∧ t < e.«end») := by
  induction evs generalizing c with
  | nil => intro s hs; simp [sweepSlots] at hs
  | cons ev rest ih =>
    rw [List.pairwise_cons] at hsort
    obtain ⟨hhead, htail⟩ := hsort
    intro s hs
    simp only [sweepSlots, List.mem_append] at hs
    rcases hs with hs | hs
    · -- the slot emitted in front of `ev`
      have hguard : ev.start > c ∧ ev.start - c ≥ d := by
        by_contra hg
        rw [if_neg hg] at hs
        simp at hs
      rw [if_pos hguard] at hs
      simp only [List.mem_singleton] at hs
      subst hs
      refine ⟨le_refl _, by dsimp only; omega, ⟨ev, List.mem_cons_self _ _, rfl⟩, ?_⟩
      intro e he t ht1 ht2
      dsimp only at ht1 ht2
      simp only [List.mem_cons] at he
      rcases he with rfl | he
      · omega
      · have := hhead e he
        omega
    · -- a slot emitted further along the sweep
      have hc' : ev.«end» ≤ (if ev.«end» > c then ev.«end» else c) ∧
          c ≤ (if ev.«end» > c then ev.«end» else c) := by split <;> omega
      obtain ⟨h1, h2, h3, h4⟩ := ih htail _ s hs
      refine ⟨by omega, h2, ?_, ?_⟩
      · obtain ⟨e, he, hse⟩ := h3
        exact ⟨e, List.mem_cons_of_mem _ he, hse⟩
      · intro e he t ht1 ht2
        simp only [List.mem_cons] at he
        rcases he with rfl | he
        · intro hcon
          omega
        · exact h4 e he t ht1 ht2

theorem sweepSlots_complete (d : Int) (evs : List CalEvent)
    (hpos : ∀ e ∈ evs, e.start < e.«end») :
    ∀ c a b : Int, c ≤ a → a < b → d ≤ b - a →
      (∀ e ∈ evs, ∀ t : Int, a ≤ t → t < b → ¬(e.start ≤ t ∧ t < e.«end»)) →
      (∃ s ∈ sweepSlots d evs c, s.start ≤ a ∧ b ≤ s.«end») ∨ sweepCursor evs c ≤ a := by
  induction evs with
  | nil => intro c a b hca hab hd _; right; simpa [sweepCursor] using hca
  | cons ev rest ih =>
    intro c a b hca hab hd hfree
    have hposev : ev.start < ev.«end» := hpos ev (List.mem_cons_self _ _)
    have hsplit : b ≤ ev.start ∨ ev.«end» ≤ a := by
      by_contra hcon
      push_neg at hcon
      exact hfree ev (List.mem_cons_self _ _) (max a ev.start)
        (le_max_left _ _) (by omega) ⟨le_max_right _ _, by omega⟩
    rcases hsplit with hb | ha
    · left
      have hguard : ev.start > c ∧ ev.start - c ≥ d := by omega
      refine ⟨{ start := c, «end» := ev.start }, ?_, by dsimp only; omega⟩
      simp only [sweepSlots, List.mem_append, if_pos hguard, List.mem_singleton]
      exact Or.inl trivial
    · have hc' : (if ev.«end» > c then ev.«end» else c) ≤ a := by split <;> omega
      have hfree' : ∀ e ∈ rest, ∀ t : Int, a ≤ t → t < b → ¬(e.start ≤ t ∧ t < e.«end») :=
        fun e he => hfree e (List.mem_cons_of_mem _ he)
      rcases ih (fun e he => hpos e (List.mem_cons_of_mem _ he)) _ a b hc' hab hd hfree' with
        ⟨s, hs, hsa, hsb⟩ | hcur
      · exact Or.inl ⟨s, by
          simp only [sweepSlots, List.mem_append]
          exact Or.inr hs, hsa, hsb⟩
      · right
        simpa [sweepCursor] using hcur

/-- The spec's second example event: 12:00-13:00 on 2026-02-16. -/
def demoEvent2 : CalEvent :=
  { id := "evt_2".toList, title := "lunch".toList, start := 720, «end» := 780,
    category := "general".toList, tags := [], is_movable := true, priority := 3 }

/-- C2: for a day's events sorted by start, `getFreeSlots` returns exactly
the maximal free gaps of length at least the duration: every returned slot
is at least `d` long, lies inside the window and is disjoint from every
event, every free interval of length at least `d` inside the window is
contained in a returned slot, and on the events 09:00-10:00 and
12:00-13:00 with the default 09:00-18:00 window and 60-minute duration the
result is exactly the two slots 10:00-12:00 and 13:00-18:00. -/
theorem getFreeSlots_tiles (events : List CalEvent) (dayStart dayEnd d : Int)
    (hsort : events.Pairwise (fun a b => a.start ≤ b.start))
    (hpos : ∀ e ∈ events, e.start < e.«end»)
    (hwin : ∀ e ∈ events, e.start ≤ dayEnd) :
    (∀ s ∈ getFreeSlots events dayStart dayEnd d,
      d ≤ s.«end» - s.start ∧ dayStart ≤ s.start ∧ s.«end» ≤ dayEnd ∧
      ∀ e ∈ events, ∀ t : Int, s.start ≤ t → t < s.«end» → ¬(e.start ≤ t ∧ t < e.«end»))
    ∧ (∀ a b : Int, dayStart ≤ a → a < b → b ≤ dayEnd → d ≤ b - a →
        (∀ e ∈ events, ∀ t : Int, a ≤ t → t < b → ¬(e.start ≤ t ∧ t < e.«end»)) →
        ∃ s ∈ getFreeSlots events dayStart dayEnd d, s.start ≤ a ∧ b ≤ s.«end»)
    ∧ getFreeSlots [demoEvent, demoEvent2] 540 1080 60 =
        [{ start := 600, «end» := 720 }, { start := 780, «end» := 1080 }] := by
  refine ⟨?_, ?_, by decide⟩
  · intro s hs
    simp only [getFreeSlots, List.mem_append] at hs
    rcases hs with hs | hs
    · obtain ⟨h1, h2, h3, h4⟩ := sweepSlots_sound d events hsort dayStart s hs
      obtain ⟨e, he, hse⟩ := h3
      exact ⟨h2, h1, hse ▸ hwin e he, h4⟩
    · have hguard : sweepCursor events dayStart < dayEnd ∧
          dayEnd - sweepCursor events dayStart ≥ d := by
        by_contra hg
        rw [if_neg hg] at hs
        simp at hs
      rw [if_pos hguard] at hs
      simp only [List.mem_singleton] at hs
      subst hs
      refine ⟨by simp only; omega, by simpa using sweepCursor_ge events dayStart,
        le_refl _, ?_⟩
      intro e he t ht1 ht2 hcon
      have := sweepCursor_ge_ends events dayStart e he
      simp only at ht1 ht2
      omega
  · intro a b hda hab hbd hd hfree
    rcases sweepSlots_complete d events hpos dayStart a b hda hab hd hfree with
      ⟨s, hs, hsa, hsb⟩ | hcur
    · exact ⟨s, by simp only [getFreeSlots, List.mem_append]; exact Or.inl hs, hsa, hsb⟩
    · have hguard : sweepCursor events dayStart < dayEnd ∧
          dayEnd - sweepCursor events dayStart ≥ d := by omega
      refine ⟨{ start := sweepCursor events dayStart, «end» := dayEnd }, ?_, hcur, hbd⟩
      simp only [getFreeSlots, List.mem_append, if_pos hguard, List.mem_singleton]
      exact Or.inr trivial

/-- Concrete instantiation of `getFreeSlots_tiles` on the spec's example
store. -/
theorem getFreeSlots_tiles_witness :
    (([demoEvent, demoEvent2] : List CalEvent).Pairwise (fun a b => a.start ≤ b.start))
    ∧ ((∀ s ∈ getFreeSlots [demoEvent, demoEvent2] 540 1080 60,
        (60 : Int) ≤ s.«end» - s.start ∧ 540 ≤ s.start ∧ s.«end» ≤ 1080 ∧
        ∀ e ∈ [demoEvent, demoEvent2], ∀ t : Int,
          s.start ≤ t → t < s.«end» → ¬(e.start ≤ t ∧ t < e.«end»))
      ∧ (∀ a b : Int, 540 ≤ a → a < b → b ≤ 1080 → 60 ≤ b - a →
          (∀ e ∈ [demoEvent, demoEvent2], ∀ t : Int,
            a ≤ t → t < b → ¬(e.start ≤ t ∧ t < e.«end»)) →
          ∃ s ∈ getFreeSlots [demoEvent, demoEvent2] 540 1080 60, s.start ≤ a ∧ b ≤ s.«end»)
      ∧ getFreeSlots [demoEvent, demoEvent2] 540 1080 60 =
          [{ start := 600, «end» := 720 }, { start := 780, «end» := 1080 }]) :=
  ⟨by decide, getFreeSlots_tiles [demoEvent, demoEvent2] 540 1080 60
    (by decide) (by decide) (by decide)⟩

/- ════════════════ Schedule adjustment: respect_priority (C6) ════════════════ -/

/-- Action tag of a `ScheduleProposal` entry. -/
inductive ProposalAction
  | move
  | conflict
  | create
deriving Repr, DecidableEq

/-- Proposal entry as built by the adjustment strategies, restricted to
the machine-readable fields (`reason` display strings are not modelled). -/
structure Proposal where
  action : ProposalAction
  event_id : Option Str
  priority : Option Int
  proposedStart : Option Int
  proposedEnd : Option Int
deriving Repr, DecidableEq

/-- `strategyRespectPriority` (src recommend.ts lines 425-466): a conflict
is proposed to move after `newEnd` iff `event.priority > newPriority &&
event.is_movable`; otherwise a `conflict` entry carrying the event's
priority is emitted. -/
def strategyRespectPriority (conflicts : List CalEvent) (newEnd newPriority : Int) :
    List Proposal :=
  conflicts.map (fun event =>
    if event.priority > newPriority ∧ event.is_movable then
      { action := ProposalAction.move, event_id := some event.id, priority := none,
        proposedStart := some newEnd,
        proposedEnd := some (newEnd + (event.«end» - event.start)) }
    else
      { action := ProposalAction.conflict, event_id := some event.id,
        priority := some event.priority, proposedStart := none, proposedEnd := none })

/-- C6: under `respect_priority`, the i-th conflicting event gets a `move`
proposal iff it is movable and its priority value is strictly greater than
the new event's (strictly lower rank); in every other case it yields a
`conflict` entry carrying the event's own priority. -/
theorem strategyRespectPriority_move_iff (conflicts : List CalEvent)
    (newEnd newPriority : Int) :
    (strategyRespectPriority conflicts newEnd newPriority).length = conflicts.length
    ∧ ∀ (i : ℕ) (C : CalEvent), conflicts[i]? = some C →
        ∃ P, (strategyRespectPriority conflicts newEnd newPriority)[i]? = some P
          ∧ (P.action = ProposalAction.move ↔ C.is_movable = true ∧ C.priority > newPriority)
          ∧ (¬(C.is_movable = true ∧ C.priority > newPriority) →
              P.action = ProposalAction.conflict ∧ P.priority = some C.priority)
          ∧ P.event_id = some C.id := by
  refine ⟨List.length_map _ _, ?_⟩
  intro i C hC
  have hP : (strategyRespectPriority conflicts newEnd newPriority)[i]? =
      some (if C.priority > newPriority ∧ C.is_movable = true then
        ⟨ProposalAction.move, some C.id, none, some newEnd, some (newEnd + (C.«end» - C.start))⟩
      else ⟨ProposalAction.conflict, some C.id, some C.priority, none, none⟩) := by
    simp only [strategyRespectPriority, List.getElem?_map, hC, Option.map_some']
  by_cases h : C.priority > newPriority ∧ C.is_movable = true
  · rw [if_pos h] at hP
    exact ⟨_, hP, ⟨fun _ => ⟨h.2, h.1⟩, fun _ => rfl⟩, fun hcon => absurd ⟨h.2, h.1⟩ hcon, rfl⟩
  · rw [if_neg h] at hP
    exact ⟨_, hP, ⟨fun habs => (nomatch habs), fun hc => absurd ⟨hc.2, hc.1⟩ h⟩,
      fun _ => ⟨rfl, rfl⟩, rfl⟩

/-- Concrete instantiation of `strategyRespectPriority_move_iff`: a
movable priority-5 event conflicts with a new priority-3 event. -/
theorem strategyRespectPriority_move_iff_witness :
    (([{ demoEvent with priority := 5 }] : List CalEvent)[0]? =
        some { demoEvent with priority := 5 })
    ∧ ∃ P, (strategyRespectPriority [{ demoEvent with priority := 5 }] 660 3)[0]? = some P
        ∧ (P.action = ProposalAction.move ↔
            ({ demoEvent with priority := 5 } : CalEvent).is_movable = true ∧
            ({ demoEvent with priority := 5 } : CalEvent).priority > 3)
        ∧ (¬(({ demoEvent with priority := 5 } : CalEvent).is_movable = true ∧
              ({ demoEvent with priority := 5 } : CalEvent).priority > 3) →
            P.action = ProposalAction.conflict ∧
            P.priority = some ({ demoEvent with priority := 5 } : CalEvent).priority)
        ∧ P.event_id = some ({ demoEvent with priority := 5 } : CalEvent).id :=
  ⟨by decide,
    (strategyRespectPriority_move_iff [{ demoEvent with priority := 5 }] 660 3).2
      0 { demoEvent with priority := 5 } (by decide)⟩

/- ════════════════ Time scoring (C4) ════════════════ -/

/-- `UserPersona.schedulingStyle` values. -/
inductive SchedulingStyle
  | conservative
  | moderate
  | aggressive
deriving Repr, DecidableEq

/-- Active-hours block of the persona; the source stores `HH:MM` strings
and converts them with `hhmmToMinutes` at every use site, so the fields
are embedded directly as minutes-of-day. -/
structure ActiveHours where
  workStart : Int
  workEnd : Int
  lunchStart : Int
  lunchEnd : Int
deriving Repr, DecidableEq

/-- `RoutinePattern` (src/shared/types.ts); `typicalStart`/`typicalEnd`
are minutes-of-day, `confidence` is in hundredths (the analyzer rounds
confidences to two decimals, so the scaling is exact). -/
structure RoutinePattern where
  keyword : Str
  dayOfWeek : List Int
  typicalStart : Int
  typicalEnd : Int
  confidence : Int
deriving Repr, DecidableEq

/-- `PersonaNote.type` values. -/
inductive NoteType
  | drift
  | explicit
deriving Repr, DecidableEq

/-- `PersonaNote` (src/shared/types.ts). -/
structure PersonaNote where
  createdAt : Str
  type : NoteType
  content : Str
  relatedRoutine : Option Str
  count : Int
deriving Repr, DecidableEq

/-- `UserPersona`, restricted to the fields read or written by the scoring
and drift functions (`preferredMeetingTimes` holds `HH:00` strings in the
source and is embedded as the list of those hours). -/
structure UserPersona where
  updatedAt : Str
  activeHours : ActiveHours
  routines : List RoutinePattern
  schedulingStyle : SchedulingStyle
  preferredMeetingTimes : List Int
  bufferPreference : Int
  notes : List PersonaNote
deriving Repr, DecidableEq

/-- JavaScript `Date.prototype.getHours` on a local timestamp in minutes. -/
def jsGetHours (t : Int) : Int := (t % 1440) / 60

/-- JavaScript `Date.prototype.getMinutes` on a local timestamp in minutes. -/
def jsGetMinutes (t : Int) : Int := (t % 1440) % 60

/-- `defaultTimeScore` (src recommend.ts lines 113-120): the static
heuristic used when no persona exists. -/
def defaultTimeScore (t : Int) : Int :=
  let hour := jsGetHours t
  if 10 ≤ hour ∧ hour ≤ 11 then 100
  else if 14 ≤ hour ∧ hour ≤ 15 then 95
  else if 9 ≤ hour ∧ hour ≤ 12 then 80
  else if 13 ≤ hour ∧ hour ≤ 17 then 70
  else 50

/-- `Math.round(30 * confidence)` with `confidence` in hundredths:
`round(3k/10) = floor((3k+5)/10)`, exact for every integer `k`. -/
def routinePenalty (confidenceCenti : Int) : Int := (3 * confidenceCenti + 5) / 10

/-- The buffer used for both the lunch window and the routine windows in
`personalizedTimeScore`: `conservative ? Math.max(15, bufferPreference) : 10`
(the source spells this expression out at both use sites). -/
def styleBuffer (persona : UserPersona) : Int :=
  if persona.schedulingStyle = SchedulingStyle.conservative then
    max 15 persona.bufferPreference
  else 10

/-- `personalizedTimeScore` (src recommend.ts lines 126-180): hard floor
20 outside work hours, 30 inside the buffered lunch window, otherwise
baseline 70 plus preferred-hour boost, minus the first matching routine's
penalty, plus the style adjustment, clamped to `[10, 100]`. -/
def personalizedTimeScore (t : Int) (persona : UserPersona) : Int :=
  let mins := jsGetHours t * 60 + jsGetMinutes t
  let workStart := persona.activeHours.workStart
  let workEnd := persona.activeHours.workEnd
  let lunchStart := persona.activeHours.lunchStart
  let lunchEnd := persona.activeHours.lunchEnd
  if mins < workStart ∨ mins ≥ workEnd then 20
  else if lunchStart - styleBuffer persona ≤ mins ∧
      mins < lunchEnd + styleBuffer persona then 30
  else
    let hour := jsGetHours t
    let score0 : Int :=
      70 + (if persona.preferredMeetingTimes.contains hour then 25 else 0)
    let score1 : Int :=
      match persona.routines.find? (fun r =>
          30 ≤ r.confidence ∧ r.typicalStart - styleBuffer persona ≤ mins ∧
          mins < r.typicalEnd + styleBuffer persona) with
      | some r => score0 - routinePenalty r.confidence
      | none => score0
      let score2 : Int :=
        match persona.schedulingStyle with
        | SchedulingStyle.conservative =>
          score1 + (if 10 ≤ hour ∧ hour ≤ 11 then 15 else 0)
            + (if 14 ≤ hour ∧ hour ≤ 15 then 10 else 0)
            + (if hour = workStart / 60 ∨ hour = workEnd / 60 - 1 then -10 else 0)
        | SchedulingStyle.aggressive =>
          score1 + 5 + (if 10 ≤ hour ∧ hour ≤ 11 then 5 else 0)
        | SchedulingStyle.moderate =>
          score1 + (if 10 ≤ hour ∧ hour ≤ 11 then 10 else 0)
            + (if 14 ≤ hour ∧ hour ≤ 15 then 5 else 0)
      max 10 (min 100 score2)

/-- `calculateTimeScore` (src recommend.ts lines 182-185). -/
def calculateTimeScore (t : Int) : Option UserPersona → Int
  | some persona => personalizedTimeScore t persona
  | none => defaultTimeScore t

/-- C4: `calculateTimeScore` is bounded: with a persona the result lies in
`[10, 100]`; without one it is one of `{50, 70, 80, 95, 100}` and is given
exactly by the static table with earlier rows taking precedence. -/
theorem calculateTimeScore_bounded (t : Int) (persona : UserPersona) :
    (10 ≤ calculateTimeScore t (some persona) ∧ calculateTimeScore t (some persona) ≤ 100)
    ∧ calculateTimeScore t none ∈ ([50, 70, 80, 95, 100] : List Int)
    ∧ calculateTimeScore t none =
        (if 10 ≤ jsGetHours t ∧ jsGetHours t ≤ 11 then 100
         else if 14 ≤ jsGetHours t ∧ jsGetHours t ≤ 15 then 95
         else if 9 ≤ jsGetHours t ∧ jsGetHours t ≤ 12 then 80
         else if 13 ≤ jsGetHours t ∧ jsGetHours t ≤ 17 then 70
         else 50) := by
  refine ⟨?_, ?_, rfl⟩
  · show 10 ≤ personalizedTimeScore t persona ∧ personalizedTimeScore t persona ≤ 100
    unfold personalizedTimeScore
    dsimp only
    split
    · omega
    · split
      · omega
      · exact ⟨le_max_left _ _, max_le (by omega) (min_le_left _ _)⟩
  · show defaultTimeScore t ∈ _
    unfold defaultTimeScore
    dsimp only
    split_ifs <;> simp

/- ════════════════ Optimal-time suggestion (C5) ════════════════ -/

/-- A candidate emitted by `suggestOptimalTimes` (src recommend.ts lines
239-245 and 260-266); `date` is the preferred date (day number standing
for the `YYYY-MM-DD` string). -/
structure Suggestion where
  date : Int
  start : Int
  «end» : Int
  available_until : Int
  score : Int
deriving Repr, DecidableEq

/-- `suggestOptimalTimes` constraints after the source's defaulting
(`time_range ?? ['09:00','18:00']`, `avoid_categories ?? []`,
`buffer_minutes ?? 0`); time-range ends are minutes-of-day. -/
structure Constraints where
  time_range_start : Int
  time_range_end : Int
  avoid_categories : List Str
  buffer_minutes : Int
deriving Repr, DecidableEq

/-- Candidate-emission part of the per-date sweep in `suggestOptimalTimes`
(src recommend.ts lines 229-252), applied to the buffer-expanded events:
emit a candidate of exactly `durationMinutes` starting at the cursor
whenever a gap of at least `durationMinutes` opens in front of an event. -/
def suggestSweep (dateV : Int) (persona : Option UserPersona) (durationMinutes : Int) :
    List CalEvent → Int → List Suggestion
  | [], _ => []
  | ev :: rest, cursor =>
    (if ev.start > cursor ∧ ev.start - cursor ≥ durationMinutes then
        [⟨dateV, cursor, cursor + durationMinutes, ev.start,
          calculateTimeScore cursor persona⟩]
      else [])
      ++ suggestSweep dateV persona durationMinutes rest
          (if ev.«end» > cursor then ev.«end» else cursor)

/-- Per-date candidate generation of `suggestOptimalTimes`
(src recommend.ts lines 204-269): fetch the day's events, drop avoided
categories, expand each event by `buffer_minutes` on both sides, sweep,
and add the trailing candidate after the last event. -/
def suggestForDate (store : List CalEvent) (durationMinutes : Int) (c : Constraints)
    (persona : Option UserPersona) (d : Int) : List Suggestion :=
  let dayStart := d * 1440 + c.time_range_start
  let dayEnd := d * 1440 + c.time_range_end
  let fetched := dexieGetEventsInt store dayStart dayEnd
  let events :=
    if c.avoid_categories.isEmpty then fetched
    else fetched.filter (fun e => !(c.avoid_categories.contains e.category))
  let buffered := events.map (fun e =>
    { e with start := e.start - c.buffer_minutes, «end» := e.«end» + c.buffer_minutes })
  let finalCursor := sweepCursor buffered dayStart
  suggestSweep d persona durationMinutes buffered dayStart
    ++ (if finalCursor < dayEnd ∧ dayEnd - finalCursor ≥ durationMinutes then
          [⟨d, finalCursor, finalCursor + durationMinutes, dayEnd,
            calculateTimeScore finalCursor persona⟩]
        else [])

/-- All candidates of `suggestOptimalTimes`, in original per-date /
per-position order (before sorting). -/
def suggestCandidates (store : List CalEvent) (durationMinutes : Int)
    (preferredDates : List Int) (c : Constraints) (persona : Option UserPersona) :
    List Suggestion :=
  preferredDates.bind (suggestForDate store durationMinutes c persona)

/-- Insertion step of the stable descending sort modelling
`suggestions.sort((a, b) => b.score - a.score)`: the new element is placed
after every element of strictly greater score, before the first element of
less-or-equal score. -/
def insertDescBy (x : Suggestion) : List Suggestion → List Suggestion
  | [] => [x]
  | y :: ys => if y.score > x.score then y :: insertDescBy x ys else x :: y :: ys

/-- Stable descending sort by score; JavaScript `Array.prototype.sort` is
stable, and with the comparator `b.score - a.score` it produces exactly
the stable descending order this insertion sort computes. -/
def sortByScoreDesc : List Suggestion → List Suggestion
  | [] => []
  | x :: xs => insertDescBy x (sortByScoreDesc xs)

/-- `suggestOptimalTimes` (src recommend.ts lines 187-277): all per-date
candidates, sorted by score descending, truncated to the top 5. -/
def suggestOptimalTimes (store : List CalEvent) (durationMinutes : Int)
    (preferredDates : List Int) (c : Constraints) (persona : Option UserPersona) :
    List Suggestion :=
  (sortByScoreDesc (suggestCandidates store durationMinutes preferredDates c persona)).take 5

theorem mem_insertDescBy (x z : Suggestion) (l : List Suggestion) :
    z ∈ insertDescBy x l ↔ z = x ∨ z ∈ l := by
  induction l with
  | nil => simp [insertDescBy]
  | cons y ys ih =>
    simp only [insertDescBy]
    split
    · simp only [List.mem_cons, ih]
      tauto
    · simp only [List.mem_cons]

theorem pairwise_insertDescBy (x : Suggestion) (l : List Suggestion)
    (h : l.Pairwise (fun a b => b.score ≤ a.score)) :
    (insertDescBy x l).Pairwise (fun a b => b.score ≤ a.score) := by
  induction l with
  | nil => simp [insertDescBy]
  | cons y ys ih =>
    rw [List.pairwise_cons] at h
    obtain ⟨hy, hys⟩ := h
    simp only [insertDescBy]
    split
    · rw [List.pairwise_cons]
      refine ⟨?_, ih hys⟩
      intro z hz
      rcases (mem_insertDescBy x z ys).mp hz with rfl | hz
      · omega
      · exact hy z hz
    · rw [List.pairwise_cons]
      refine ⟨?_, List.pairwise_cons.mpr ⟨hy, hys⟩⟩
      intro z hz
      rcases List.mem_cons.mp hz with rfl | hz
      · omega
      · have := hy z hz
        omega

theorem pairwise_sortByScoreDesc (l : List Suggestion) :
    (sortByScoreDesc l).Pairwise (fun a b => b.score ≤ a.score) := by
  induction l with
  | nil => simp [sortByScoreDesc]
  | cons x xs ih => exact pairwise_insertDescBy x _ ih

theorem filter_insertDescBy (q : Int) (x : Suggestion) (l : List Suggestion) :
    (insertDescBy x l).filter (fun s => s.score = q) =
      if x.score = q then x :: l.filter (fun s => s.score = q)
      else l.filter (fun s => s.score = q) := by
  induction l with
  | nil =>
    by_cases hxq : x.score = q
    · simp [insertDescBy, hxq]
    · simp [insertDescBy, hxq]
  | cons y ys ih =>
    simp only [insertDescBy]
    by_cases hyx : y.score > x.score
    · rw [if_pos hyx]
      by_cases hxq : x.score = q
      · have hyq : ¬(y.score = q) := by omega
        rw [if_pos hxq]
        simp only [List.filter_cons, ih, if_pos hxq]
        simp [hyq]
      · rw [if_neg hxq]
        simp only [List.filter_cons, ih, if_neg hxq]
    · rw [if_neg hyx]
      by_cases hxq : x.score = q
      · rw [if_pos hxq]
        simp [List.filter_cons, hxq]
      · rw [if_neg hxq]
        simp [List.filter_cons, hxq]

theorem filter_sortByScoreDesc (q : Int) (l : List Suggestion) :
    (sortByScoreDesc l).filter (fun s => s.score = q) =
      l.filter (fun s => s.score = q) := by
  induction l with
  | nil => rfl
  | cons x xs ih =>
    simp only [sortByScoreDesc, filter_insertDescBy, List.filter_cons, ih]
    split <;> simp_all

theorem perm_sortByScoreDesc (l : List Suggestion) : (sortByScoreDesc l).Perm l := by
  induction l with
  | nil => rfl
  | cons x xs ih =>
    have h1 : (insertDescBy x (sortByScoreDesc xs)).Perm (x :: sortByScoreDesc xs) := by
      clear ih
      induction sortByScoreDesc xs with
      | nil => rfl
      | cons y ys ih2 =>
        simp only [insertDescBy]
        split
        · exact (ih2.cons y).trans (List.Perm.swap x y ys)
        · rfl
    exact h1.trans (ih.cons x)

theorem suggestSweep_duration (dateV : Int) (persona : Option UserPersona)
    (dm : Int) (evs : List CalEvent) (cursor : Int) :
    ∀ s ∈ suggestSweep dateV persona dm evs cursor, s.«end» = s.start + dm := by
  induction evs generalizing cursor with
  | nil => intro s hs; simp [suggestSweep] at hs
  | cons ev rest ih =>
    intro s hs
    simp only [suggestSweep, List.mem_append] at hs
    rcases hs with hs | hs
    · have hguard : ev.start > cursor ∧ ev.start - cursor ≥ dm := by
        by_contra hg
        rw [if_neg hg] at hs
        simp at hs
      rw [if_pos hguard] at hs
      simp only [List.mem_singleton] at hs
      subst hs
      rfl
    · exact ih _ s hs

theorem suggestForDate_duration (store : List CalEvent) (dm : Int) (c : Constraints)
    (persona : Option UserPersona) (d : Int) :
    ∀ s ∈ suggestForDate store dm c persona d, s.«end» = s.start + dm := by
  intro s hs
  simp only [suggestForDate, List.mem_append] at hs
  rcases hs with hs | hs
  · exact suggestSweep_duration _ _ _ _ _ s hs
  · split at hs <;> split at hs <;>
      first
        | exact absurd hs (List.not_mem_nil s)
        | (simp only [List.mem_singleton] at hs; subst hs; rfl)

/-- C5: `suggestOptimalTimes` returns at most 5 candidates, sorted in
descending score order; the sort is stable (for every score value, the
equal-score candidates keep their original per-date/position order); and
every returned candidate comes from the per-date sweep with
`end - start = durationMinutes` exactly and its start at the sweep cursor
of the gap it came from. -/
theorem suggestOptimalTimes_top5 (store : List CalEvent) (dm : Int)
    (dates : List Int) (c : Constraints) (persona : Option UserPersona) :
    (suggestOptimalTimes store dm dates c persona).length ≤ 5
    ∧ (suggestOptimalTimes store dm dates c persona).Pairwise
        (fun a b => b.score ≤ a.score)
    ∧ (∀ q : Int,
        (sortByScoreDesc (suggestCandidates store dm dates c persona)).filter
            (fun s => s.score = q) =
          (suggestCandidates store dm dates c persona).filter (fun s => s.score = q))
    ∧ ∀ s ∈ suggestOptimalTimes store dm dates c persona,
        s ∈ suggestCandidates store dm dates c persona ∧ s.«end» = s.start + dm := by
  refine ⟨?_, ?_, fun q => filter_sortByScoreDesc q _, ?_⟩
  · simpa [suggestOptimalTimes] using
      List.length_take_le 5 (sortByScoreDesc (suggestCandidates store dm dates c persona))
  · exact (pairwise_sortByScoreDesc _).sublist (List.take_sublist _ _)
  · intro s hs
    have hmem : s ∈ sortByScoreDesc (suggestCandidates store dm dates c persona) :=
      List.mem_of_mem_take hs
    have hcand : s ∈ suggestCandidates store dm dates c persona :=
      (perm_sortByScoreDesc _).mem_iff.mp hmem
    refine ⟨hcand, ?_⟩
    simp only [suggestCandidates, List.mem_bind] at hcand
    obtain ⟨d, _, hd⟩ := hcand
    exact suggestForDate_duration store dm c persona d s hd

/-- Concrete instantiation of `suggestOptimalTimes_top5`: the demo store
on one date with the default constraints and no persona. -/
theorem suggestOptimalTimes_top5_witness :
    (suggestOptimalTimes [demoEvent, demoEvent2] 60 [0] ⟨540, 1080, [], 0⟩ none).length ≤ 5
    ∧ (suggestOptimalTimes [demoEvent, demoEvent2] 60 [0] ⟨540, 1080, [], 0⟩ none).Pairwise
        (fun a b => b.score ≤ a.score)
    ∧ (∀ q : Int,
        (sortByScoreDesc (suggestCandidates [demoEvent, demoEvent2] 60 [0]
            ⟨540, 1080, [], 0⟩ none)).filter (fun s => s.score = q) =
          (suggestCandidates [demoEvent, demoEvent2] 60 [0]
            ⟨540, 1080, [], 0⟩ none).filter (fun s => s.score = q))
    ∧ ∀ s ∈ suggestOptimalTimes [demoEvent, demoEvent2] 60 [0] ⟨540, 1080, [], 0⟩ none,
        s ∈ suggestCandidates [demoEvent, demoEvent2] 60 [0] ⟨540, 1080, [], 0⟩ none
        ∧ s.«end» = s.start + 60 :=
  suggestOptimalTimes_top5 [demoEvent, demoEvent2] 60 [0] ⟨540, 1080, [], 0⟩ none

/- ════════════════ Dexie store model (C3, C9, C10) ════════════════ -/

/-- Stored calendar event with the wire (string) timestamp representation
(src/shared/types.ts `Event`). -/
structure StoreEvent where
  id : Str
  title : Str
  start : Str
  «end» : Str
  description : Option Str
  location : Option Str
  category : Str
  tags : List Str
  is_movable : Bool
  priority : Int
deriving Repr, DecidableEq

/-- The `Category` enum's wire values (src/shared/types.ts). -/
def categoryValues : List Str :=
  ["dax-web".toList, "dax-sl".toList, "etc".toList, "meeting".toList,
   "ai".toList, "general".toList]

/-- One undo snapshot; `before = none` encodes "did not exist". -/
structure Snapshot where
  event_id : Str
  before : Option StoreEvent
deriving Repr, DecidableEq

/-- `UndoLog` row (src/shared/types.ts). -/
structure UndoLog where
  undoId : Str
  changeSetId : Str
  createdAt : Str
  snapshots : List Snapshot
deriving Repr, DecidableEq

/-- The Dexie database: the `events` table (primary key `id`) and the
`undoLogs` table, each as a list of rows. -/
structure DB where
  events : List StoreEvent
  undoLogs : List UndoLog
deriving Repr, DecidableEq

/-- Primary-key lookup `db.events.get(id)` (first row with that id). -/
def findEvent (events : List StoreEvent) (eventId : Str) : Option StoreEvent :=
  events.find? (fun e => e.id = eventId)

/-- `Partial<Event>` patch object: a field is `some v` exactly when the
key is present in the `changes` object; an `id` field models a patch that
even carries an `id` key. -/
structure EventPatch where
  id : Option Str
  title : Option Str
  start : Option Str
  «end» : Option Str
  description : Option Str
  location : Option Str
  category : Option Str
  tags : Option (List Str)
  is_movable : Option Bool
  priority : Option Int
deriving Repr, DecidableEq

/-- The merged row produced by `DexieCalendar.updateEvent`
(src/data/calendar.ts lines 113-132): `id` keys are skipped, a `category`
value outside the enum silently keeps the existing category, every other
present key overwrites, absent keys keep the existing value. -/
def applyPatch (existing : StoreEvent) (changes : EventPatch) : StoreEvent :=
  { id := existing.id
    title := changes.title.getD existing.title
    start := changes.start.getD existing.start
    «end» := changes.«end».getD existing.«end»
    description := match changes.description with
      | some v => some v
      | none => existing.description
    location := match changes.location with
      | some v => some v
      | none => existing.location
    category := match changes.category with
      | some c => if categoryValues.contains c then c else existing.category
      | none => existing.category
    tags := changes.tags.getD existing.tags
    is_movable := changes.is_movable.getD existing.is_movable
    priority := changes.priority.getD existing.priority }

/-- `DexieCalendar.createEvent` (src/data/calendar.ts lines 83-98) as a
pure state transform; the generated event id (used when `event.id` is the
empty string), the changeset/undo uuids and the timestamp are parameters.
`db.events.add` rejects a duplicate primary key, aborting the transaction;
that failure is modelled as `none`. -/
def dexieCreateEvent (db : DB) (event : StoreEvent)
    (genId changeSetId undoId now : Str) : Option (StoreEvent × DB) :=
  let id := if event.id.isEmpty then genId else event.id
  let newEvent := { event with id := id }
  if (findEvent db.events id).isSome then none
  else
    some (newEvent,
      { events := db.events ++ [newEvent],
        undoLogs := db.undoLogs ++ [⟨undoId, changeSetId, now, [⟨id, none⟩]⟩] })

/-- `DexieCalendar.updateEvent` (src/data/calendar.ts lines 100-145): on a
missing id nothing happens and no log is written; otherwise the patched
row replaces the row with that primary key and one undo log holding the
pre-update snapshot is appended. -/
def dexieUpdateEvent (db : DB) (eventId : Str) (changes : EventPatch)
    (changeSetId undoId now : Str) : Option StoreEvent × DB :=
  match findEvent db.events eventId with
  | none => (none, db)
  | some existing =>
    let events' := db.events.map (fun e =>
      if e.id = eventId then applyPatch e changes else e)
    (findEvent events' eventId,
      { events := events',
        undoLogs := db.undoLogs ++ [⟨undoId, changeSetId, now, [⟨eventId, some existing⟩]⟩] })

/-- `DexieCalendar.deleteEvent` (src/data/calendar.ts lines 147-169): on a
present id, remove the row with that primary key and append one undo log
holding the deleted row. -/
def dexieDeleteEvent (db : DB) (eventId : Str)
    (changeSetId undoId now : Str) : Bool × DB :=
  match findEvent db.events eventId with
  | none => (false, db)
  | some existing =>
    (true,
      { events := db.events.filter (fun e => !(e.id = eventId)),
        undoLogs := db.undoLogs ++ [⟨undoId, changeSetId, now, [⟨eventId, some existing⟩]⟩] })

/-- Undo-of-update restoration (src/data/calendar.ts lines 199-205): every
field of the snapshot except `id` overwrites the current row. -/
def restoreExceptId (current before : StoreEvent) : StoreEvent :=
  { before with id := current.id }

/-- One snapshot application inside `DexieCalendar.undo`
(src/data/calendar.ts lines 185-207). -/
def applySnapshot (events : List StoreEvent) (snap : Snapshot) : List StoreEvent :=
  match snap.before with
  | none =>
    if (findEvent events snap.event_id).isSome then
      events.filter (fun e => !(e.id = snap.event_id))
    else events
  | some before =>
    match findEvent events snap.event_id with
    | none => events ++ [before]
    | some _ =>
      events.map (fun e =>
        if e.id = snap.event_id then restoreExceptId e before else e)

/-- `DexieCalendar.undo` (src/data/calendar.ts lines 175-212): apply every
snapshot of every log with the given changeset id, in order; the logs are
not deleted; returns `false` when no log matches. -/
def dexieUndo (db : DB) (changeSetId : Str) : Bool × DB :=
  let logs := db.undoLogs.filter (fun l => l.changeSetId = changeSetId)
  if logs.isEmpty then (false, db)
  else
    (true,
      { db with
        events := logs.foldl (fun evs log => log.snapshots.foldl applySnapshot evs)
          db.events })

theorem filter_changeset_fresh (logs : List UndoLog) (cs : Str)
    (hcs : ∀ l ∈ logs, l.changeSetId ≠ cs) (log : UndoLog)
    (hlog : log.changeSetId = cs) :
    (logs ++ [log]).filter (fun l => l.changeSetId = cs) = [log] := by
  rw [List.filter_append]
  have h1 : logs.filter (fun l => l.changeSetId = cs) = [] := by
    rw [List.filter_eq_nil]
    intro l hl
    simpa using hcs l hl
  rw [h1]
  simp [List.filter, hlog]

theorem findEvent_filter_ne (events : List StoreEvent) (eid j : Str) (hne : j ≠ eid) :
    findEvent (events.filter (fun e => !(e.id = eid))) j = findEvent events j := by
  induction events with
  | nil => rfl
  | cons e rest ih =>
    unfold findEvent at ih ⊢
    by_cases he : e.id = eid
    · have hj : ¬((fun e => decide (e.id = j)) e = true) := by
        simp only [decide_eq_true_eq]
        intro h
        rw [h] at he
        exact hne he
      rw [List.filter_cons_of_neg (by simpa using he), ih,
        List.find?_cons_of_neg rest hj]
    · by_cases hj : e.id = j
      · rw [List.filter_cons_of_pos (by simpa using he),
          List.find?_cons_of_pos _ (by simpa using hj),
          List.find?_cons_of_pos _ (by simpa using hj)]
      · rw [List.filter_cons_of_pos (by simpa using he),
          List.find?_cons_of_neg _ (by simpa using hj),
          List.find?_cons_of_neg _ (by simpa using hj), ih]

theorem findEvent_map_preserving (f : StoreEvent → StoreEvent)
    (hf : ∀ e, (f e).id = e.id) (events : List StoreEvent) (j : Str) :
    findEvent (events.map f) j = (findEvent events j).map f := by
  induction events with
  | nil => rfl
  | cons e rest ih =>
    unfold findEvent at ih ⊢
    by_cases hj : e.id = j
    · rw [List.map_cons, List.find?_cons_of_pos _ (by simp [hf, hj]),
        List.find?_cons_of_pos _ (by simpa using hj), Option.map_some']
    · rw [List.map_cons, List.find?_cons_of_neg _ (by simp [hf, hj]),
        List.find?_cons_of_neg _ (by simpa using hj), ih]

theorem dexieUndo_single (db' : DB) (cs : Str) (log : UndoLog)
    (hlogs : db'.undoLogs.filter (fun l => l.changeSetId = cs) = [log]) :
    dexieUndo db' cs =
      (true, { db' with events := log.snapshots.foldl applySnapshot db'.events }) := by
  unfold dexieUndo
  rw [hlogs]
  rfl

theorem undoCreate_restores (db : DB) (cs : Str)
    (hcs : ∀ l ∈ db.undoLogs, l.changeSetId ≠ cs)
    (E : StoreEvent) (genId undoId now : Str) (created : StoreEvent) (db₂ : DB)
    (hcr : dexieCreateEvent db E genId cs undoId now = some (created, db₂)) :
    (dexieUndo db₂ cs).1 = true ∧ (dexieUndo db₂ cs).2.events = db.events := by
  unfold dexieCreateEvent at hcr
  set idv := if E.id.isEmpty then genId else E.id with hidv
  by_cases hdup : (findEvent db.events idv).isSome
  · rw [if_pos hdup] at hcr
    exact absurd hcr (by simp)
  · rw [if_neg hdup] at hcr
    simp only [Option.some.injEq, Prod.mk.injEq] at hcr
    obtain ⟨-, rfl⟩ := hcr
    rw [dexieUndo_single _ cs (⟨undoId, cs, now, [⟨idv, none⟩]⟩ : UndoLog)
      (filter_changeset_fresh db.undoLogs cs hcs _ rfl)]
    refine ⟨rfl, ?_⟩
    show applySnapshot (db.events ++ [{ E with id := idv }]) ⟨idv, none⟩ = db.events
    have hsome : (findEvent (db.events ++ [{ E with id := idv }]) idv).isSome := by
      unfold findEvent
      rw [List.find?_append]
      rw [Option.not_isSome_iff_eq_none] at hdup
      unfold findEvent at hdup
      rw [hdup, Option.none_or]
      simp
    unfold applySnapshot
    rw [if_pos hsome]
    rw [List.filter_append]
    have h1 : db.events.filter (fun e => !(e.id = idv)) = db.events := by
      rw [List.filter_eq_self]
      intro e he
      rw [Option.not_isSome_iff_eq_none] at hdup
      unfold findEvent at hdup
      rw [List.find?_eq_none] at hdup
      simpa using hdup e he
    have h2 : ([({ E with id := idv } : StoreEvent)]).filter (fun e => !(e.id = idv)) = [] := by
      simp
    rw [h1, h2, List.append_nil]

theorem undoDelete_restores (db : DB) (cs : Str)
    (hcs : ∀ l ∈ db.undoLogs, l.changeSetId ≠ cs)
    (eventId : Str) (E : StoreEvent) (undoId now : Str)
    (hfind : findEvent db.events eventId = some E) :
    (dexieUndo (dexieDeleteEvent db eventId cs undoId now).2 cs).1 = true
    ∧ findEvent (dexieUndo (dexieDeleteEvent db eventId cs undoId now).2 cs).2.events
        eventId = some E
    ∧ ∀ j, findEvent (dexieUndo (dexieDeleteEvent db eventId cs undoId now).2 cs).2.events j
        = findEvent db.events j := by
  have hEid : E.id = eventId := by simpa using List.find?_some hfind
  unfold dexieDeleteEvent
  rw [hfind]
  dsimp only
  rw [dexieUndo_single _ cs (⟨undoId, cs, now, [⟨eventId, some E⟩]⟩ : UndoLog)
    (filter_changeset_fresh db.undoLogs cs hcs _ rfl)]
  have hnone : findEvent (db.events.filter (fun e => !(e.id = eventId))) eventId = none := by
    unfold findEvent
    rw [List.find?_eq_none]
    intro e he
    rw [List.mem_filter] at he
    simpa using he.2
  have happly : applySnapshot (db.events.filter (fun e => !(e.id = eventId)))
      ⟨eventId, some E⟩ = db.events.filter (fun e => !(e.id = eventId)) ++ [E] := by
    unfold applySnapshot
    rw [hnone]
  refine ⟨rfl, ?_, ?_⟩
  · show findEvent (applySnapshot (db.events.filter (fun e => !(e.id = eventId)))
      ⟨eventId, some E⟩) eventId = some E
    rw [happly]
    unfold findEvent
    rw [List.find?_append]
    unfold findEvent at hnone
    rw [hnone, Option.none_or]
    simp [hEid]
  · intro j
    show findEvent (applySnapshot (db.events.filter (fun e => !(e.id = eventId)))
      ⟨eventId, some E⟩) j = findEvent db.events j
    rw [happly]
    by_cases hj : j = eventId
    · subst hj
      unfold findEvent
      rw [List.find?_append]
      unfold findEvent at hnone
      rw [hnone, Option.none_or]
      simpa [hEid] using hfind.symm
    · unfold findEvent
      rw [List.find?_append]
      have hfe := findEvent_filter_ne db.events eventId j hj
      unfold findEvent at hfe
      rw [hfe]
      cases hdb : List.find? (fun e => decide (e.id = j)) db.events with
      | none =>
        rw [Option.none_or]
        rw [List.find?_eq_none]
        intro x hx
        simp only [List.mem_singleton] at hx
        subst hx
        simp only [decide_eq_true_eq]
        rw [hEid]
        exact fun h => hj h.symm
      | some ev => rw [Option.or_some]

theorem undoUpdate_restores (db : DB) (cs : Str)
    (hcs : ∀ l ∈ db.undoLogs, l.changeSetId ≠ cs)
    (eventId : Str) (E : StoreEvent) (changes : EventPatch) (undoId now : Str)
    (hfind : findEvent db.events eventId = some E) :
    (dexieUndo (dexieUpdateEvent db eventId changes cs undoId now).2 cs).1 = true
    ∧ ∀ j, findEvent
        (dexieUndo (dexieUpdateEvent db eventId changes cs undoId now).2 cs).2.events j
        = findEvent db.events j := by
  have hEid : E.id = eventId := by simpa using List.find?_some hfind
  have hf₁ : ∀ e : StoreEvent,
      ((if e.id = eventId then applyPatch e changes else e) : StoreEvent).id = e.id := by
    intro e
    split <;> rfl
  have hf₂ : ∀ e : StoreEvent,
      ((if e.id = eventId then restoreExceptId e E else e) : StoreEvent).id = e.id := by
    intro e
    split <;> rfl
  unfold dexieUpdateEvent
  rw [hfind]
  dsimp only
  rw [dexieUndo_single _ cs (⟨undoId, cs, now, [⟨eventId, some E⟩]⟩ : UndoLog)
    (filter_changeset_fresh db.undoLogs cs hcs _ rfl)]
  have hmapped : findEvent (db.events.map (fun e =>
      if e.id = eventId then applyPatch e changes else e)) eventId =
      some (applyPatch E changes) := by
    rw [findEvent_map_preserving _ hf₁, hfind, Option.map_some']
    rw [if_pos hEid]
  have happly : applySnapshot (db.events.map (fun e =>
      if e.id = eventId then applyPatch e changes else e)) ⟨eventId, some E⟩ =
      (db.events.map (fun e => if e.id = eventId then applyPatch e changes else e)).map
        (fun e => if e.id = eventId then restoreExceptId e E else e) := by
    unfold applySnapshot
    rw [hmapped]
  refine ⟨rfl, ?_⟩
  intro j
  show findEvent (applySnapshot (db.events.map (fun e =>
      if e.id = eventId then applyPatch e changes else e)) ⟨eventId, some E⟩) j
    = findEvent db.events j
  rw [happly, findEvent_map_preserving _ hf₂, findEvent_map_preserving _ hf₁]
  cases hdb : findEvent db.events j with
  | none => rfl
  | some ev =>
    have hevj : ev.id = j := by simpa using List.find?_some hdb
    simp only [Option.map_some']
    by_cases hje : j = eventId
    · subst hje
      have hevE : ev = E := by
        rw [hdb] at hfind
        exact (Option.some.injEq _ _).mp hfind
      subst hevE
      rw [if_pos hevj]
      have hidp : (applyPatch ev changes).id = ev.id := rfl
      rw [if_pos (hidp.trans hevj)]
      show some (restoreExceptId (applyPatch ev changes) ev) = some ev
      unfold restoreExceptId applyPatch
      rfl
    · have hne : ¬(ev.id = eventId) := by
        rw [hevj]
        exact hje
      rw [if_neg hne]
      rw [if_neg hne]

/-- C3: undo is an inverse of each mutation: after `createEvent` followed
by `undo` of its changeset the events table is restored exactly (the
created event is gone); after `deleteEvent` followed by `undo` the event
is re-inserted with all the same field values including the same id and
every other lookup is unchanged; after `updateEvent` followed by `undo`
every lookup — in particular every field of the updated event except the
untouched id — is back to its pre-update value. -/
theorem undo_inverts_mutations (db : DB) (cs : Str)
    (hcs : ∀ l ∈ db.undoLogs, l.changeSetId ≠ cs) :
    (∀ (E : StoreEvent) (genId undoId now : Str) (created : StoreEvent) (db₂ : DB),
      dexieCreateEvent db E genId cs undoId now = some (created, db₂) →
      (dexieUndo db₂ cs).1 = true ∧ (dexieUndo db₂ cs).2.events = db.events)
    ∧ (∀ (eventId : Str) (E : StoreEvent) (undoId now : Str),
        findEvent db.events eventId = some E →
        (dexieUndo (dexieDeleteEvent db eventId cs undoId now).2 cs).1 = true
        ∧ findEvent (dexieUndo (dexieDeleteEvent db eventId cs undoId now).2 cs).2.events
            eventId = some E
        ∧ ∀ j, findEvent
            (dexieUndo (dexieDeleteEvent db eventId cs undoId now).2 cs).2.events j
            = findEvent db.events j)
    ∧ (∀ (eventId : Str) (E : StoreEvent) (changes : EventPatch) (undoId now : Str),
        findEvent db.events eventId = some E →
        (dexieUndo (dexieUpdateEvent db eventId changes cs undoId now).2 cs).1 = true
        ∧ ∀ j, findEvent
            (dexieUndo (dexieUpdateEvent db eventId changes cs undoId now).2 cs).2.events j
            = findEvent db.events j) :=
  ⟨fun E genId undoId now created db₂ hcr =>
      undoCreate_restores db cs hcs E genId undoId now created db₂ hcr,
    fun eventId E undoId now hfind =>
      undoDelete_restores db cs hcs eventId E undoId now hfind,
    fun eventId E changes undoId now hfind =>
      undoUpdate_restores db cs hcs eventId E changes undoId now hfind⟩

/-- A concrete stored event for witnesses. -/
def demoStoreEvent : StoreEvent :=
  { id := "evt_1".toList, title := "meeting".toList,
    start := "2026-02-16T09:00:00".toList, «end» := "2026-02-16T10:00:00".toList,
    description := none, location := none, category := "meeting".toList,
    tags := [], is_movable := true, priority := 3 }

/-- Concrete instantiation of `undo_inverts_mutations` on a one-event
store with an empty undo log. -/
theorem undo_inverts_mutations_witness :
    (∀ l ∈ (⟨[demoStoreEvent], []⟩ : DB).undoLogs, l.changeSetId ≠ "cs1".toList)
    ∧ ((∀ (E : StoreEvent) (genId undoId now : Str) (created : StoreEvent) (db₂ : DB),
        dexieCreateEvent ⟨[demoStoreEvent], []⟩ E genId "cs1".toList undoId now =
          some (created, db₂) →
        (dexieUndo db₂ "cs1".toList).1 = true ∧
        (dexieUndo db₂ "cs1".toList).2.events = (⟨[demoStoreEvent], []⟩ : DB).events)
      ∧ (∀ (eventId : Str) (E : StoreEvent) (undoId now : Str),
          findEvent (⟨[demoStoreEvent], []⟩ : DB).events eventId = some E →
          (dexieUndo (dexieDeleteEvent ⟨[demoStoreEvent], []⟩ eventId "cs1".toList
            undoId now).2 "cs1".toList).1 = true
          ∧ findEvent (dexieUndo (dexieDeleteEvent ⟨[demoStoreEvent], []⟩ eventId
              "cs1".toList undoId now).2 "cs1".toList).2.events eventId = some E
          ∧ ∀ j, findEvent (dexieUndo (dexieDeleteEvent ⟨[demoStoreEvent], []⟩ eventId
              "cs1".toList undoId now).2 "cs1".toList).2.events j
              = findEvent (⟨[demoStoreEvent], []⟩ : DB).events j)
      ∧ (∀ (eventId : Str) (E : StoreEvent) (changes : EventPatch) (undoId now : Str),
          findEvent (⟨[demoStoreEvent], []⟩ : DB).events eventId = some E →
          (dexieUndo (dexieUpdateEvent ⟨[demoStoreEvent], []⟩ eventId changes
            "cs1".toList undoId now).2 "cs1".toList).1 = true
          ∧ ∀ j, findEvent (dexieUndo (dexieUpdateEvent ⟨[demoStoreEvent], []⟩ eventId
              changes "cs1".toList undoId now).2 "cs1".toList).2.events j
              = findEvent (⟨[demoStoreEvent], []⟩ : DB).events j)) :=
  ⟨by simp, undo_inverts_mutations ⟨[demoStoreEvent], []⟩ "cs1".toList (by simp)⟩

/-- C9: `DexieCalendar.updateEvent` never changes an event's id: for every
stored event and every patch — including one carrying an `id` key — the
updated row keeps the old id; each supplied field is merged (an invalid
category is silently kept as the existing category), every unsupplied
field is unchanged, and every other row of the table is untouched. -/
theorem updateEvent_preserves_id (db : DB) (eventId : Str) (changes : EventPatch)
    (cs undoId now : Str) (E : StoreEvent)
    (hfind : findEvent db.events eventId = some E) :
    ∃ E', (dexieUpdateEvent db eventId changes cs undoId now).1 = some E'
      ∧ findEvent (dexieUpdateEvent db eventId changes cs undoId now).2.events eventId
          = some E'
      ∧ E'.id = E.id
      ∧ E'.title = changes.title.getD E.title
      ∧ E'.start = changes.start.getD E.start
      ∧ E'.«end» = changes.«end».getD E.«end»
      ∧ E'.description = (match changes.description with
          | some v => some v
          | none => E.description)
      ∧ E'.location = (match changes.location with
          | some v => some v
          | none => E.location)
      ∧ E'.category = (match changes.category with
          | some c => if categoryValues.contains c then c else E.category
          | none => E.category)
      ∧ E'.tags = changes.tags.getD E.tags
      ∧ E'.is_movable = changes.is_movable.getD E.is_movable
      ∧ E'.priority = changes.priority.getD E.priority
      ∧ ∀ j, j ≠ eventId →
          findEvent (dexieUpdateEvent db eventId changes cs undoId now).2.events j
            = findEvent db.events j := by
  have hEid : E.id = eventId := by simpa using List.find?_some hfind
  have hf₁ : ∀ e : StoreEvent,
      ((if e.id = eventId then applyPatch e changes else e) : StoreEvent).id = e.id := by
    intro e
    split <;> rfl
  have hmapped : findEvent (db.events.map (fun e =>
      if e.id = eventId then applyPatch e changes else e)) eventId =
      some (applyPatch E changes) := by
    rw [findEvent_map_preserving _ hf₁, hfind, Option.map_some']
    rw [if_pos hEid]
  refine ⟨applyPatch E changes, ?_, ?_, rfl, rfl, rfl, rfl, rfl, rfl, rfl, rfl, rfl, rfl, ?_⟩
  · unfold dexieUpdateEvent
    rw [hfind]
    dsimp only
    exact hmapped
  · unfold dexieUpdateEvent
    rw [hfind]
    dsimp only
    exact hmapped
  · intro j hj
    unfold dexieUpdateEvent
    rw [hfind]
    dsimp only
    rw [findEvent_map_preserving _ hf₁]
    cases hdb : findEvent db.events j with
    | none => rfl
    | some ev =>
      have hevj : ev.id = j := by simpa using List.find?_some hdb
      simp only [Option.map_some']
      rw [if_neg (by rw [hevj]; exact hj)]

/-- Concrete instantiation of `updateEvent_preserves_id`: a patch that
carries an `id` key and an invalid category. -/
theorem updateEvent_preserves_id_witness :
    (findEvent (⟨[demoStoreEvent], []⟩ : DB).events "evt_1".toList = some demoStoreEvent)
    ∧ ∃ E', (dexieUpdateEvent ⟨[demoStoreEvent], []⟩ "evt_1".toList
        ⟨some "hijacked".toList, some "renamed".toList, none, none, none, none,
          some "bogus".toList, none, none, none⟩ "cs2".toList "u2".toList "t2".toList).1
          = some E'
      ∧ findEvent (dexieUpdateEvent ⟨[demoStoreEvent], []⟩ "evt_1".toList
          ⟨some "hijacked".toList, some "renamed".toList, none, none, none, none,
            some "bogus".toList, none, none, none⟩
          "cs2".toList "u2".toList "t2".toList).2.events "evt_1".toList = some E'
      ∧ E'.id = demoStoreEvent.id
      ∧ E'.title = (some "renamed".toList).getD demoStoreEvent.title
      ∧ E'.start = (none : Option Str).getD demoStoreEvent.start
      ∧ E'.«end» = (none : Option Str).getD demoStoreEvent.«end»
      ∧ E'.description = (match (none : Option Str) with
          | some v => some v
          | none => demoStoreEvent.description)
      ∧ E'.location = (match (none : Option Str) with
          | some v => some v
          | none => demoStoreEvent.location)
      ∧ E'.category = (match some "bogus".toList with
          | some c => if categoryValues.contains c then c else demoStoreEvent.category
          | none => demoStoreEvent.category)
      ∧ E'.tags = (none : Option (List Str)).getD demoStoreEvent.tags
      ∧ E'.is_movable = (none : Option Bool).getD demoStoreEvent.is_movable
      ∧ E'.priority = (none : Option Int).getD demoStoreEvent.priority
      ∧ ∀ j, j ≠ "evt_1".toList →
          findEvent (dexieUpdateEvent ⟨[demoStoreEvent], []⟩ "evt_1".toList
            ⟨some "hijacked".toList, some "renamed".toList, none, none, none, none,
              some "bogus".toList, none, none, none⟩
            "cs2".toList "u2".toList "t2".toList).2.events j
            = findEvent (⟨[demoStoreEvent], []⟩ : DB).events j :=
  ⟨by decide, updateEvent_preserves_id ⟨[demoStoreEvent], []⟩ "evt_1".toList
    ⟨some "hijacked".toList, some "renamed".toList, none, none, none, none,
      some "bogus".toList, none, none, none⟩ "cs2".toList "u2".toList "t2".toList
    demoStoreEvent (by decide)⟩

/- ════════════════ Tool-level date adjustment (C10) ════════════════ -/

/-- Stable ascending insertion by `start` modelling Dexie's
`sortBy('start')` / `orderBy('start')` row order. -/
def insertAscByStart (x : StoreEvent) : List StoreEvent → List StoreEvent
  | [] => [x]
  | y :: ys => if strLtb y.start x.start then y :: insertAscByStart x ys else x :: y :: ys

/-- Sort stored rows by their `start` string. -/
def sortByStartStr : List StoreEvent → List StoreEvent
  | [] => []
  | x :: xs => insertAscByStart x (sortByStartStr xs)

/-- `DexieCalendar.getEvents` on stored rows (src/data/calendar.ts lines
24-47): keep rows with `start <= endDate && end >= startDate` under
code-unit lexicographic string comparison, in `start` order, then apply
the optional category and tag filters. -/
def dexieGetEvents (store : List StoreEvent) (startDate endDate : Str)
    (category : Option Str) (tags : Option (List Str)) : List StoreEvent :=
  let events := sortByStartStr (store.filter (fun e =>
    strLeb e.start endDate && strLeb startDate e.«end»))
  let events := match category with
    | some c => events.filter (fun e => e.category = c)
    | none => events
  match tags with
  | some ts =>
    if ts.isEmpty then events
    else events.filter (fun e => ts.any (fun tag => e.tags.contains tag))
  | none => events

/-- `DexieCalendar.searchEvents` (src/data/calendar.ts lines 49-77):
case-insensitive substring match over title, description and tags of all
rows in `start` order, then the optional date-range filters. -/
def dexieSearchEvents (store : List StoreEvent) (query : Str)
    (startDate endDate : Option Str) : List StoreEvent :=
  let pattern := strLower query
  let events := sortByStartStr store
  let events := events.filter (fun e =>
    strIncludes (strLower e.title) pattern
    || (match e.description with
        | some d => strIncludes (strLower d) pattern
        | none => false)
    || e.tags.any (fun t => strIncludes (strLower t) pattern))
  let events := match startDate with
    | some sd => events.filter (fun e => strLeb sd e.«end»)
    | none => events
  match endDate with
  | some ed => events.filter (fun e => strLeb e.start ed)
  | none => events

/-- Tool-level `getEvents` (src/tools/query.ts lines 8-22): a date-only
`endDate` (not containing `'T'`) is extended with `'T23:59:59'` before
the store query; a timestamp `endDate` is forwarded unchanged. -/
def toolGetEvents (store : List StoreEvent) (startDate endDate : Str)
    (category : Option Str) (tags : Option (List Str)) : List StoreEvent :=
  let adjustedEnd := if endDate.contains 'T' then endDate
    else endDate ++ "T23:59:59".toList
  dexieGetEvents store startDate adjustedEnd category tags

/-- Tool-level `searchEvents` (src/tools/query.ts lines 24-36): same
end-of-day adjustment, applied only when an `endDate` is given. -/
def toolSearchEvents (store : List StoreEvent) (query : Str)
    (startDate endDate : Option Str) : List StoreEvent :=
  let adjustedEnd := match endDate with
    | some e => some (if e.contains 'T' then e else e ++ "T23:59:59".toList)
    | none => none
  dexieSearchEvents store query startDate adjustedEnd

/-- C10: the tool-level `getEvents` and `searchEvents` treat a date-only
end date as inclusive of the whole day: when `endDate` does not contain
`'T'` the store is queried with `endDate + 'T23:59:59'`, and when it does
the string is forwarded unchanged (searches without an end date are also
forwarded unchanged). -/
theorem toolQueries_adjust_endDate (store : List StoreEvent)
    (startDate endDate : Str) (category : Option Str) (tags : Option (List Str))
    (query : Str) (startDateOpt : Option Str) :
    (endDate.contains 'T' = false →
      toolGetEvents store startDate endDate category tags
        = dexieGetEvents store startDate (endDate ++ "T23:59:59".toList) category tags
      ∧ toolSearchEvents store query startDateOpt (some endDate)
        = dexieSearchEvents store query startDateOpt
            (some (endDate ++ "T23:59:59".toList)))
    ∧ (endDate.contains 'T' = true →
      toolGetEvents store startDate endDate category tags
        = dexieGetEvents store startDate endDate category tags
      ∧ toolSearchEvents store query startDateOpt (some endDate)
        = dexieSearchEvents store query startDateOpt (some endDate))
    ∧ toolSearchEvents store query startDateOpt none
        = dexieSearchEvents store query startDateOpt none := by
  refine ⟨?_, ?_, rfl⟩
  · intro h
    have hne : ¬(endDate.contains 'T' = true) := by
      rw [h]
      exact Bool.false_ne_true
    constructor
    · unfold toolGetEvents
      rw [if_neg hne]
    · unfold toolSearchEvents
      dsimp only
      rw [if_neg hne]
  · intro h
    constructor
    · unfold toolGetEvents
      rw [if_pos h]
    · unfold toolSearchEvents
      dsimp only
      rw [if_pos h]

/-- Concrete instantiation of `toolQueries_adjust_endDate` on a date-only
end date. -/
theorem toolQueries_adjust_endDate_witness :
    (("2026-02-16".toList : Str).contains 'T' = false)
    ∧ (toolGetEvents [demoStoreEvent] "2026-02-16".toList "2026-02-16".toList none none
        = dexieGetEvents [demoStoreEvent] "2026-02-16".toList
            ("2026-02-16".toList ++ "T23:59:59".toList) none none
      ∧ toolSearchEvents [demoStoreEvent] "meeting".toList none (some "2026-02-16".toList)
        = dexieSearchEvents [demoStoreEvent] "meeting".toList none
            (some ("2026-02-16".toList ++ "T23:59:59".toList))) :=
  ⟨by decide,
    (toolQueries_adjust_endDate [demoStoreEvent] "2026-02-16".toList "2026-02-16".toList
      none none "meeting".toList none).1 (by decide)⟩

/- ════════════════ Drift detection (C7) ════════════════ -/

/-- `LUNCH_KEYWORDS` (src persona module). -/
def LUNCH_KEYWORDS : List Str :=
  ["점심".toList, "lunch".toList, "런치".toList, "식사".toList]

/-- `titleMatchesKeywords`: case-insensitive substring match of any
keyword in the lowercased title. -/
def titleMatchesKeywords (title : Str) (keywords : List Str) : Bool :=
  keywords.any (fun k => strIncludes (strLower title) k)

/-- Minutes-of-day of a local timestamp
(`getHours() * 60 + getMinutes()`). -/
def evMinOfDay (t : Int) : Int := jsGetHours t * 60 + jsGetMinutes t

/-- Digit character (for two-digit zero padding). -/
def digitChar (n : Int) : Char := Char.ofNat (48 + n.toNat)

/-- Two-digit zero-padded rendering of an hour/minute value. -/
def pad2 (n : Int) : Str := [digitChar (n / 10 % 10), digitChar (n % 10)]

/-- `HH:MM` rendering of minutes-of-day (the source keeps `HH:MM` strings;
this renders the embedded integer back for note contents). -/
def minutesToHHMM (mins : Int) : Str := pad2 (mins / 60) ++ ':' :: pad2 (mins % 60)

/-- Drift note content (src persona module, `detectDriftInner`). -/
def driftNoteContent (keyword : Str) (typicalStart evStartMin : Int) : Str :=
  '"' :: keyword ++ '"' :: " 시간대 변화 감지: ".toList
    ++ minutesToHHMM typicalStart ++ '→' :: minutesToHHMM evStartMin

/-- Predicate locating the drift note of a routine
(`n.type === 'drift' && n.relatedRoutine === routine.keyword`). -/
def driftNoteKey (keyword : Str) (n : PersonaNote) : Bool :=
  n.type = NoteType.drift && n.relatedRoutine = some keyword

/-- The refreshed drift note: count incremented, content and timestamp
replaced (src persona module lines 706-709). -/
def bumpNote (n : PersonaNote) (content now : Str) : PersonaNote :=
  { n with count := n.count + 1, content := content, createdAt := now }

/-- Drift adoption of a routine (src persona module lines 712-714):
typical times overwritten with the observed ones, confidence bumped by
0.1 (10 hundredths) capped at 1 (100). -/
def adoptRoutine (r : RoutinePattern) (sMin eMin : Int) : RoutinePattern :=
  { r with
    typicalStart := sMin,
    typicalEnd := eMin,
    confidence := min 100 (r.confidence + 10) }

/-- Lunch coupling of drift adoption (src persona module lines 717-720). -/
def lunchAdjust (ah : ActiveHours) (keyword : Str) (sMin eMin : Int) : ActiveHours :=
  if titleMatchesKeywords keyword LUNCH_KEYWORDS then
    { ah with lunchStart := sMin, lunchEnd := eMin }
  else ah

/-- A fresh drift note with count 1 (src persona module lines 723-729). -/
def newDriftNote (keyword : Str) (typicalStart sMin : Int) (now : Str) : PersonaNote :=
  { createdAt := now, type := NoteType.drift,
    content := driftNoteContent keyword typicalStart sMin,
    relatedRoutine := some keyword, count := 1 }

/-- One loop iteration of `detectDriftInner` (src persona module lines
689-733) for a single routine, threading the notes list, active hours and
`changed` flag: skip non-matching or in-threshold events, otherwise
refresh (or create) the drift note and adopt the drift once the
incremented count reaches 3 (`DRIFT_ADOPT_COUNT`), removing the note. -/
def driftStep (evTitle : Str) (evStartMin evEndMin : Int) (now : Str)
    (r : RoutinePattern) (notes : List PersonaNote) (ah : ActiveHours) (changed : Bool) :
    RoutinePattern × List PersonaNote × ActiveHours × Bool :=
  if titleMatchesKeywords evTitle [r.keyword] = true then
    if |evStartMin - r.typicalStart| < 30 ∧ |evEndMin - r.typicalEnd| < 30 then
      (r, notes, ah, changed)
    else
      match notes.findIdx? (driftNoteKey r.keyword) with
      | some i =>
        match notes[i]? with
        | some existing =>
          let notes₁ := notes.set i
            (bumpNote existing (driftNoteContent r.keyword r.typicalStart evStartMin) now)
          if existing.count + 1 ≥ 3 then
            (adoptRoutine r evStartMin evEndMin, notes₁.eraseIdx i,
              lunchAdjust ah r.keyword evStartMin evEndMin, true)
          else (r, notes₁, ah, true)
        | none => (r, notes, ah, changed)
      | none =>
        (r, notes ++ [newDriftNote r.keyword r.typicalStart evStartMin now], ah, true)
  else (r, notes, ah, changed)

/-- The `for routine of persona.routines` loop of `detectDriftInner`:
each routine is rewritten in place while notes/active-hours/`changed`
thread through. -/
def driftFold (evTitle : Str) (evStartMin evEndMin : Int) (now : Str) :
    List RoutinePattern → List PersonaNote → ActiveHours → Bool →
      List RoutinePattern × List PersonaNote × ActiveHours × Bool
  | [], notes, ah, ch => ([], notes, ah, ch)
  | r :: rs, notes, ah, ch =>
    let s := driftStep evTitle evStartMin evEndMin now r notes ah ch
    let rec2 := driftFold evTitle evStartMin evEndMin now rs s.2.1 s.2.2.1 s.2.2.2
    (s.1 :: rec2.1, rec2.2)

/-- `detectDriftInner` (src persona module lines 676-742) over an already
loaded persona: run the routine loop, and if anything changed trim the
notes to the most recent 50 and stamp `updatedAt`. -/
def detectDriftInner (persona : UserPersona) (evTitle : Str) (evStart evEnd : Int)
    (now : Str) : UserPersona :=
  let f := driftFold evTitle (evMinOfDay evStart) (evMinOfDay evEnd) now
    persona.routines persona.notes persona.activeHours false
  if f.2.2.2 then
    { persona with
      routines := f.1,
      notes := if f.2.1.length > 50 then f.2.1.drop (f.2.1.length - 50) else f.2.1,
      activeHours := f.2.2.1,
      updatedAt := now }
  else persona

theorem eraseIdx_set_same (l : List PersonaNote) (x : PersonaNote) :
    ∀ i, (l.set i x).eraseIdx i = l.eraseIdx i := by
  induction l with
  | nil => intro i; rfl
  | cons a rest ih =>
    intro i
    cases i with
    | zero => rfl
    | succ n =>
      simp only [List.set_cons_succ, List.eraseIdx_cons_succ]
      rw [ih n]

theorem length_eraseIdx_le (l : List PersonaNote) : ∀ i, (l.eraseIdx i).length ≤ l.length := by
  induction l with
  | nil => intro i; simp [List.eraseIdx]
  | cons a rest ih =>
    intro i
    cases i with
    | zero => simp [List.eraseIdx]
    | succ n =>
      simp only [List.eraseIdx_cons_succ, List.length_cons]
      exact Nat.succ_le_succ (ih n)

theorem driftStep_conf (evTitle : Str) (evStartMin evEndMin : Int) (now : Str)
    (r : RoutinePattern) (notes : List PersonaNote) (ah : ActiveHours) (changed : Bool)
    (hc : r.confidence ≤ 100) :
    r.confidence ≤ (driftStep evTitle evStartMin evEndMin now r notes ah changed).1.confidence
    ∧ (driftStep evTitle evStartMin evEndMin now r notes ah changed).1.confidence ≤ 100 := by
  unfold driftStep
  split
  · split
    · exact ⟨le_rfl, hc⟩
    · split
      · split
        · split
          · exact ⟨le_min hc (by omega), min_le_left _ _⟩
          · exact ⟨le_rfl, hc⟩
        · exact ⟨le_rfl, hc⟩
      · exact ⟨le_rfl, hc⟩
  · exact ⟨le_rfl, hc⟩

theorem driftFold_conf (evTitle : Str) (evStartMin evEndMin : Int) (now : Str) :
    ∀ (rs : List RoutinePattern) (notes : List PersonaNote) (ah : ActiveHours) (ch : Bool),
      (driftFold evTitle evStartMin evEndMin now rs notes ah ch).1.length = rs.length
      ∧ ∀ (i : ℕ) (r : RoutinePattern), rs[i]? = some r → r.confidence ≤ 100 →
          ∃ r', (driftFold evTitle evStartMin evEndMin now rs notes ah ch).1[i]? = some r'
            ∧ r.confidence ≤ r'.confidence ∧ r'.confidence ≤ 100 := by
  intro rs
  induction rs with
  | nil =>
    intro notes ah ch
    refine ⟨rfl, ?_⟩
    intro i r h
    simp at h
  | cons r0 rest ih =>
    intro notes ah ch
    constructor
    · simp only [driftFold, List.length_cons]
      exact congrArg (· + 1) (ih _ _ _).1
    · intro i r hi hc
      cases i with
      | zero =>
        simp only [List.getElem?_cons_zero, Option.some.injEq] at hi
        subst hi
        refine ⟨(driftStep evTitle evStartMin evEndMin now r0 notes ah ch).1, ?_, ?_⟩
        · simp only [driftFold, List.getElem?_cons_zero]
        · exact driftStep_conf evTitle evStartMin evEndMin now r0 notes ah ch hc
      | succ n =>
        simp only [List.getElem?_cons_succ] at hi
        simp only [driftFold, List.getElem?_cons_succ]
        exact (ih _ _ _).2 n r hi hc

/-- C7: drift detection adopts a routine's new time exactly on the 3rd
cumulative unresolved-drift observation: a routine's confidence never
decreases (and stays capped at 1) across `detectDrift` runs; for a
matching drifting event, when no drift note exists a note with count 1 is
created and the routine is untouched, and when a note with count `c`
exists it is refreshed to count `c+1`, with the routine's typical times
overwritten, its confidence bumped by 0.1 capped at 1, and the note
removed exactly when `c+1` reaches 3 — not before. -/
theorem detectDrift_monotone_and_adoption (p : UserPersona) (evTitle : Str)
    (evStart evEnd : Int) (now : Str) :
    ((detectDriftInner p evTitle evStart evEnd now).routines.length = p.routines.length
      ∧ ∀ (i : ℕ) (r : RoutinePattern), p.routines[i]? = some r → r.confidence ≤ 100 →
          ∃ r', (detectDriftInner p evTitle evStart evEnd now).routines[i]? = some r'
            ∧ r.confidence ≤ r'.confidence ∧ r'.confidence ≤ 100)
    ∧ (∀ r : RoutinePattern, p.routines = [r] →
        titleMatchesKeywords evTitle [r.keyword] = true →
        ¬(|evMinOfDay evStart - r.typicalStart| < 30 ∧
          |evMinOfDay evEnd - r.typicalEnd| < 30) →
        ((p.notes.findIdx? (driftNoteKey r.keyword) = none → p.notes.length < 50 →
            (detectDriftInner p evTitle evStart evEnd now).routines = [r]
            ∧ (detectDriftInner p evTitle evStart evEnd now).notes =
                p.notes ++ [newDriftNote r.keyword r.typicalStart (evMinOfDay evStart) now])
          ∧ ∀ (i : ℕ) (n : PersonaNote),
              p.notes.findIdx? (driftNoteKey r.keyword) = some i →
              p.notes[i]? = some n → p.notes.length ≤ 50 →
              ((n.count + 1 ≥ 3 →
                  (detectDriftInner p evTitle evStart evEnd now).routines =
                    [adoptRoutine r (evMinOfDay evStart) (evMinOfDay evEnd)]
                  ∧ (detectDriftInner p evTitle evStart evEnd now).notes =
                      p.notes.eraseIdx i)
                ∧ (n.count + 1 < 3 →
                  (detectDriftInner p evTitle evStart evEnd now).routines = [r]
                  ∧ (detectDriftInner p evTitle evStart evEnd now).notes =
                      p.notes.set i (bumpNote n
                        (driftNoteContent r.keyword r.typicalStart (evMinOfDay evStart))
                        now))))) := by
  constructor
  · unfold detectDriftInner
    dsimp only
    split
    · constructor
      · exact (driftFold_conf evTitle (evMinOfDay evStart) (evMinOfDay evEnd) now
          p.routines p.notes p.activeHours false).1
      · intro i r hi hc
        exact (driftFold_conf evTitle (evMinOfDay evStart) (evMinOfDay evEnd) now
          p.routines p.notes p.activeHours false).2 i r hi hc
    · exact ⟨rfl, fun i r hi hc => ⟨r, hi, le_rfl, hc⟩⟩
  · intro r hr hmatch hdiff
    constructor
    · intro hnone hlen
      have hstep : driftStep evTitle (evMinOfDay evStart) (evMinOfDay evEnd) now r
          p.notes p.activeHours false =
          (r, p.notes ++ [newDriftNote r.keyword r.typicalStart (evMinOfDay evStart) now],
            p.activeHours, true) := by
        unfold driftStep
        rw [if_pos hmatch, if_neg hdiff, hnone]
      have hfold : driftFold evTitle (evMinOfDay evStart) (evMinOfDay evEnd) now [r]
          p.notes p.activeHours false =
          ([r], p.notes ++ [newDriftNote r.keyword r.typicalStart (evMinOfDay evStart) now],
            p.activeHours, true) := by
        simp only [driftFold, hstep]
      have hlen2 : ¬((p.notes ++
          [newDriftNote r.keyword r.typicalStart (evMinOfDay evStart) now]).length > 50) := by
        rw [List.length_append]
        simp only [List.length_singleton]
        omega
      unfold detectDriftInner
      rw [hr]
      dsimp only
      rw [hfold]
      dsimp only
      rw [if_pos rfl]
      refine ⟨rfl, ?_⟩
      dsimp only
      rw [if_neg hlen2]
    · intro i n hidx hget hlen50
      constructor
      · intro hc3
        have hstep : driftStep evTitle (evMinOfDay evStart) (evMinOfDay evEnd) now r
            p.notes p.activeHours false =
            (adoptRoutine r (evMinOfDay evStart) (evMinOfDay evEnd),
              (p.notes.set i (bumpNote n
                (driftNoteContent r.keyword r.typicalStart (evMinOfDay evStart)) now)).eraseIdx i,
              lunchAdjust p.activeHours r.keyword (evMinOfDay evStart) (evMinOfDay evEnd),
              true) := by
          unfold driftStep
          rw [if_pos hmatch, if_neg hdiff, hidx]
          dsimp only
          rw [hget]
          dsimp only
          rw [if_pos hc3]
        have hfold : driftFold evTitle (evMinOfDay evStart) (evMinOfDay evEnd) now [r]
            p.notes p.activeHours false =
            (
              [adoptRoutine r (evMinOfDay evStart) (evMinOfDay evEnd)],
              (p.notes.set i (bumpNote n
                (driftNoteContent r.keyword r.typicalStart (evMinOfDay evStart)) now)).eraseIdx i,
              lunchAdjust p.activeHours r.keyword (evMinOfDay evStart) (evMinOfDay evEnd),
              true) := by
          simp only [driftFold, hstep]
        have hlen3 : ¬(((p.notes.set i (bumpNote n
            (driftNoteContent r.keyword r.typicalStart (evMinOfDay evStart)) now)).eraseIdx
              i).length > 50) := by
          have h1 := length_eraseIdx_le (p.notes.set i (bumpNote n
            (driftNoteContent r.keyword r.typicalStart (evMinOfDay evStart)) now)) i
          rw [List.length_set] at h1
          omega
        unfold detectDriftInner
        rw [hr]
        dsimp only
        rw [hfold]
        dsimp only
        rw [if_pos rfl]
        refine ⟨rfl, ?_⟩
        dsimp only
        rw [if_neg hlen3, eraseIdx_set_same]
      · intro hc3
        have hnot : ¬(n.count + 1 ≥ 3) := by omega
        have hstep : driftStep evTitle (evMinOfDay evStart) (evMinOfDay evEnd) now r
            p.notes p.activeHours false =
            (r, p.notes.set i (bumpNote n
              (driftNoteContent r.keyword r.typicalStart (evMinOfDay evStart)) now),
              p.activeHours, true) := by
          unfold driftStep
          rw [if_pos hmatch, if_neg hdiff, hidx]
          dsimp only
          rw [hget]
          dsimp only
          rw [if_neg hnot]
        have hfold : driftFold evTitle (evMinOfDay evStart) (evMinOfDay evEnd) now [r]
            p.notes p.activeHours false =
            ([r], p.notes.set i (bumpNote n
              (driftNoteContent r.keyword r.typicalStart (evMinOfDay evStart)) now),
              p.activeHours, true) := by
          simp only [driftFold, hstep]
        have hlen4 : ¬((p.notes.set i (bumpNote n
            (driftNoteContent r.keyword r.typicalStart (evMinOfDay evStart)) now)).length
              > 50) := by
          rw [List.length_set]
          omega
        unfold detectDriftInner
        rw [hr]
        dsimp only
        rw [hfold]
        dsimp only
        rw [if_pos rfl]
        refine ⟨rfl, ?_⟩
        dsimp only
        rw [if_neg hlen4]

/-- A lunch routine at 12:00-13:00 with confidence 0.5 for witnesses. -/
def demoRoutine : RoutinePattern :=
  { keyword := "lunch".toList, dayOfWeek := [], typicalStart := 720,
    typicalEnd := 780, confidence := 50 }

/-- A drift note for the lunch routine with two prior observations. -/
def demoDriftNote : PersonaNote :=
  { createdAt := "t0".toList, type := NoteType.drift, content := "c".toList,
    relatedRoutine := some "lunch".toList, count := 2 }

/-- A persona holding only the lunch routine and its drift note. -/
def demoPersona : UserPersona :=
  { updatedAt := "t0".toList,
    activeHours := { workStart := 540, workEnd := 1080, lunchStart := 750, lunchEnd := 810 },
    routines := [demoRoutine], schedulingStyle := SchedulingStyle.moderate,
    preferredMeetingTimes := [], bufferPreference := 15, notes := [demoDriftNote] }

/-- Concrete instantiation of `detectDrift_monotone_and_adoption`: the
third drifted lunch (13:30-14:30) adopts the new time and removes the
note. -/
theorem detectDrift_monotone_and_adoption_witness :
    (demoPersona.routines = [demoRoutine])
    ∧ titleMatchesKeywords "lunch".toList [demoRoutine.keyword] = true
    ∧ ¬(|evMinOfDay 810 - demoRoutine.typicalStart| < 30 ∧
        |evMinOfDay 870 - demoRoutine.typicalEnd| < 30)
    ∧ demoPersona.notes.findIdx? (driftNoteKey demoRoutine.keyword) = some 0
    ∧ demoPersona.notes[0]? = some demoDriftNote
    ∧ demoPersona.notes.length ≤ 50
    ∧ demoDriftNote.count + 1 ≥ 3
    ∧ (detectDriftInner demoPersona "lunch".toList 810 870 "t1".toList).routines =
        [adoptRoutine demoRoutine (evMinOfDay 810) (evMinOfDay 870)]
    ∧ (detectDriftInner demoPersona "lunch".toList 810 870 "t1".toList).notes =
        demoPersona.notes.eraseIdx 0 :=
  ⟨rfl, by decide, by decide, by decide, by decide, by decide, by decide,
    ((((detectDrift_monotone_and_adoption demoPersona "lunch".toList 810 870
        "t1".toList).2 demoRoutine rfl (by decide) (by decide)).2 0 demoDriftNote
        (by decide) (by decide) (by decide)).1 (by decide)).1,
    ((((detectDrift_monotone_and_adoption demoPersona "lunch".toList 810 870
        "t1".toList).2 demoRoutine rfl (by decide) (by decide)).2 0 demoDriftNote
        (by decide) (by decide) (by decide)).1 (by decide)).2⟩

/- ════════════════ Date parsing (C8) ════════════════ -/

/-- Value of the longest leading digit run; `none` when the first
character is not a digit (JavaScript `parseInt` → `NaN`). -/
def digitsLoop : Str → Nat → Nat
  | [], acc => acc
  | c :: cs, acc => if c.isDigit then digitsLoop cs (acc * 10 + (c.toNat - 48)) else acc

/-- See `digitsLoop`. -/
def takeDigitsVal : Str → Option Nat
  | [] => none
  | c :: cs => if c.isDigit then some (digitsLoop cs (c.toNat - 48)) else none

/-- JavaScript `parseInt(s, 10)`: skip leading whitespace, optional sign,
then the longest digit prefix; `none` models `NaN`. -/
def jsParseInt (s : Str) : Option Int :=
  let s := s.dropWhile (fun c => c = ' ' ∨ c = '\t' ∨ c = '\n' ∨ c = '\r')
  match s with
  | '+' :: rest => (takeDigitsVal rest).map (fun n => (n : Int))
  | '-' :: rest => (takeDigitsVal rest).map (fun n => -(n : Int))
  | rest => (takeDigitsVal rest).map (fun n => (n : Int))

/-- Days since 1970-01-01 of the civil date `y-m-d` (proleptic Gregorian,
`m` in 1..12); the standard era-based calculation with floor division. -/
def daysFromCivil (y m d : Int) : Int :=
  let y2 := if m ≤ 2 then y - 1 else y
  let era := y2 / 400
  let yoe := y2 - era * 400
  let mp := (m + 9) % 12
  let doy := (153 * mp + 2) / 5 + d - 1
  let doe := yoe * 365 + yoe / 4 - yoe / 100 + doy
  era * 146097 + doe - 719468

/-- ECMAScript `MakeFullYear` as applied by the `Date(y, m, d)`
constructor: years 0..99 map to 1900+y. -/
def jsMakeFullYear (y : Int) : Int := if 0 ≤ y ∧ y ≤ 99 then 1900 + y else y

/-- ECMAScript `MakeDay(year, monthIndex, day)`: the month is normalized
into the year and the day offsets freely — out-of-range days roll over
into the following months instead of failing. -/
def jsMakeDay (year monthIndex day : Int) : Int :=
  let ym := year + monthIndex / 12
  let mn := monthIndex % 12
  daysFromCivil ym (mn + 1) 1 + (day - 1)

/-- The ECMAScript time-value range: `|t| ≤ 8.64e15` milliseconds; beyond
it the Date is invalid (`NaN`). -/
def maxTimeValue : Int := 8640000000000000

/-- Two leading digits. -/
def digit2 : Str → Option (Nat × Str)
  | a :: b :: rest =>
    if a.isDigit ∧ b.isDigit then some ((a.toNat - 48) * 10 + (b.toNat - 48), rest)
    else none
  | _ => none

/-- Four leading digits. -/
def digit4 : Str → Option (Nat × Str)
  | a :: b :: c :: d :: rest =>
    if a.isDigit ∧ b.isDigit ∧ c.isDigit ∧ d.isDigit then
      some (((a.toNat - 48) * 1000 + (b.toNat - 48) * 100 + (c.toNat - 48) * 10
        + (d.toNat - 48)), rest)
    else none
  | _ => none

/-- Gregorian leap year. -/
def isLeapYear (y : Int) : Bool := (y % 4 = 0 ∧ y % 100 ≠ 0) ∨ y % 400 = 0

/-- Days in a month. -/
def daysInMonth (y m : Int) : Int :=
  if m = 2 then (if isLeapYear y then 29 else 28)
  else if m = 4 ∨ m = 6 ∨ m = 9 ∨ m = 11 then 30 else 31

/-- Seconds/fraction tail of an ISO time (`''`, `':SS'` or `':SS.sss'`). -/
def parseIsoSecondsTail : Str → Option Int
  | [] => some 0
  | ':' :: rest =>
    match digit2 rest with
    | some (ss, srest) =>
      if ss ≤ 59 then
        match srest with
        | [] => some ((ss : Int) * 1000)
        | '.' :: a :: b :: c :: [] =>
          if a.isDigit ∧ b.isDigit ∧ c.isDigit then
            some ((ss : Int) * 1000 + ((a.toNat - 48) * 100 + (b.toNat - 48) * 10
              + (c.toNat - 48) : Nat))
          else none
        | _ => none
      else none
    | none => none
  | _ => none

/-- ECMAScript Date Time String Format parser for local date-times
`YYYY-MM-DDTHH:MM[:SS[.sss]]` (no timezone designator), with the
standard's strict range validation — out-of-range fields give an invalid
date (`none`); the result is the local time value in milliseconds.
Engine-specific legacy fallback formats are not modelled. -/
def parseIsoLocal (s : Str) : Option Int :=
  match digit4 s with
  | none => none
  | some (y, rest1) =>
    match rest1 with
    | '-' :: rest2 =>
      match digit2 rest2 with
      | none => none
      | some (mo, rest3) =>
        match rest3 with
        | '-' :: rest4 =>
          match digit2 rest4 with
          | none => none
          | some (d, rest5) =>
            if 1 ≤ mo ∧ mo ≤ 12 ∧ 1 ≤ d ∧ (d : Int) ≤ daysInMonth (y : Int) (mo : Int) then
              match rest5 with
              | 'T' :: rest6 =>
                match digit2 rest6 with
                | some (hh, ':' :: rest7) =>
                  match digit2 rest7 with
                  | some (mi, rest8) =>
                    if hh ≤ 23 ∧ mi ≤ 59 then
                      match parseIsoSecondsTail rest8 with
                      | some msTail =>
                        some (daysFromCivil (y : Int) (mo : Int) (d : Int) * 86400000
                          + (hh : Int) * 3600000 + (mi : Int) * 60000 + msTail)
                      | none => none
                    else none
                  | none => none
                | _ => none
              | _ => none
            else none
        | _ => none
    | _ => none

/-- The `FormatError` message (the source interpolates the input into a
Korean message; the fixed prefix stands for it). -/
def dateFormatErrorMsg : Str := "잘못된 날짜 형식입니다".toList

/-- Result of `parseDate`: a local time value in milliseconds, or the
thrown format error. -/
inductive ParseResult
  | ok (t : Int)
  | error (msg : Str)
deriving Repr, DecidableEq

/-- `parseDate` (src date-utils, lines 161-189): a string containing `'T'`
goes through `new Date(string)` (ISO local parse, throw on invalid);
otherwise the string must split on `'-'` into exactly 3 parts, each is run
through `parseInt(_, 10)`, and `new Date(y, m-1, d)` builds the local
midnight — with the constructor's rollover semantics; the result throws
only when a component is `NaN` or the time value leaves the valid range. -/
def parseDate (dateStr : Str) : ParseResult :=
  if dateStr.contains 'T' then
    match parseIsoLocal dateStr with
    | some t =>
      if |t| ≤ maxTimeValue then ParseResult.ok t else ParseResult.error dateFormatErrorMsg
    | none => ParseResult.error dateFormatErrorMsg
  else
    match splitOnChar '-' dateStr with
    | [p1, p2, p3] =>
      match jsParseInt p1, jsParseInt p2, jsParseInt p3 with
      | some y, some m, some d =>
        let t := jsMakeDay (jsMakeFullYear y) (m - 1) d * 86400000
        if |t| ≤ maxTimeValue then ParseResult.ok t else ParseResult.error dateFormatErrorMsg
      | _, _, _ => ParseResult.error dateFormatErrorMsg
    | _ => ParseResult.error dateFormatErrorMsg

/-- C8 counterexample: the claim says `parseDate` throws on the invalid
calendar date `2026-02-30`; instead the date-only branch uses the
`Date(y, m, d)` constructor, which rolls the day over — the call succeeds
and yields local midnight of 2026-03-02. -/
theorem parseDate_rolls_over_invalid_dates :
    parseDate "2026-02-30".toList = ParseResult.ok (daysFromCivil 2026 3 2 * 86400000)
    ∧ ∀ msg : Str, parseDate "2026-02-30".toList ≠ ParseResult.error msg := by
  refine ⟨by decide, ?_⟩
  intro msg h
  rw [show parseDate "2026-02-30".toList
      = ParseResult.ok (daysFromCivil 2026 3 2 * 86400000) from by decide] at h
  exact ParseResult.noConfusion h

/-- C8 amended: `parseDate` accepts `YYYY-MM-DD` as local midnight and
full local ISO timestamps, and throws a format error on date-only inputs
that do not split into 3 dash-separated parts and on components with no
numeric prefix (`parseInt` → `NaN`); however date-only inputs with
out-of-range calendar components do NOT throw — the JS `Date` constructor
rolls them over (2026-02-30 parses as 2026-03-02) — while `'T'`-form
timestamps failing ISO validation (including invalid calendar dates) do
throw. -/
theorem parseDate_amended (s : Str) :
    (s.contains 'T' = false →
      ((splitOnChar '-' s).length ≠ 3 → parseDate s = ParseResult.error dateFormatErrorMsg)
      ∧ ∀ p1 p2 p3 : Str, splitOnChar '-' s = [p1, p2, p3] →
          ((jsParseInt p1 = none ∨ jsParseInt p2 = none ∨ jsParseInt p3 = none) →
            parseDate s = ParseResult.error dateFormatErrorMsg)
          ∧ ∀ y m d : Int, jsParseInt p1 = some y → jsParseInt p2 = some m →
              jsParseInt p3 = some d →
              |jsMakeDay (jsMakeFullYear y) (m - 1) d * 86400000| ≤ maxTimeValue →
              parseDate s = ParseResult.ok (jsMakeDay (jsMakeFullYear y) (m - 1) d * 86400000))
    ∧ (s.contains 'T' = true →
      (parseIsoLocal s = none → parseDate s = ParseResult.error dateFormatErrorMsg)
      ∧ ∀ t : Int, parseIsoLocal s = some t → |t| ≤ maxTimeValue →
          parseDate s = ParseResult.ok t)
    ∧ parseDate "2026-02-16".toList = ParseResult.ok (daysFromCivil 2026 2 16 * 86400000)
    ∧ parseDate "2026-02-16T09:30:00".toList =
        ParseResult.ok (daysFromCivil 2026 2 16 * 86400000 + 9 * 3600000 + 30 * 60000)
    ∧ parseDate "2026-02-30T10:00:00".toList = ParseResult.error dateFormatErrorMsg := by
  refine ⟨?_, ?_, by decide, by decide, by decide⟩
  · intro hT
    have hne : ¬(s.contains 'T' = true) := by
      rw [hT]
      exact Bool.false_ne_true
    constructor
    · intro hlen
      unfold parseDate
      rw [if_neg hne]
      rcases hsp : splitOnChar '-' s with - | ⟨p1, - | ⟨p2, - | ⟨p3, - | ⟨p4, rest⟩⟩⟩⟩
      · rfl
      · rfl
      · rfl
      · rw [hsp] at hlen
        exact absurd rfl hlen
      · rfl
    · intro p1 p2 p3 hsp
      constructor
      · intro hnan
        unfold parseDate
        rw [if_neg hne, hsp]
        dsimp only
        rcases hnan with h1 | h1
        · rw [h1]
        · rcases h1 with h2 | h2
          · rw [h2]
            cases jsParseInt p1 <;> rfl
          · rw [h2]
            cases jsParseInt p1 <;> cases jsParseInt p2 <;> rfl
      · intro y m d hy hm hd hrange
        unfold parseDate
        rw [if_neg hne, hsp]
        dsimp only
        rw [hy, hm, hd]
        dsimp only
        rw [if_pos hrange]
  · intro hT
    constructor
    · intro hnone
      unfold parseDate
      rw [if_pos hT, hnone]
    · intro t hsome hrange
      unfold parseDate
      rw [if_pos hT, hsome]
      dsimp only
      rw [if_pos hrange]

/-- Concrete instantiation of `parseDate_amended`: a malformed two-part
date, a NaN component, and a valid date-only input. -/
theorem parseDate_amended_witness :
    (("2026-02".toList : Str).contains 'T' = false
      ∧ (splitOnChar '-' ("2026-02".toList : Str)).length ≠ 3
      ∧ parseDate "2026-02".toList = ParseResult.error dateFormatErrorMsg)
    ∧ (("xx-02-16".toList : Str).contains 'T' = false
      ∧ splitOnChar '-' ("xx-02-16".toList : Str) =
          ["xx".toList, "02".toList, "16".toList]
      ∧ jsParseInt "xx".toList = none
      ∧ parseDate "xx-02-16".toList = ParseResult.error dateFormatErrorMsg)
    ∧ (("2026-02-16".toList : Str).contains 'T' = false
      ∧ splitOnChar '-' ("2026-02-16".toList : Str) =
          ["2026".toList, "02".toList, "16".toList]
      ∧ jsParseInt "2026".toList = some 2026
      ∧ jsParseInt "02".toList = some 2
      ∧ jsParseInt "16".toList = some 16
      ∧ |jsMakeDay (jsMakeFullYear 2026) (2 - 1) 16 * 86400000| ≤ maxTimeValue
      ∧ parseDate "2026-02-16".toList =
          ParseResult.ok (jsMakeDay (jsMakeFullYear 2026) (2 - 1) 16 * 86400000)) :=
  ⟨⟨by decide, by decide,
      ((parseDate_amended "2026-02".toList).1 (by decide)).1 (by decide)⟩,
    ⟨by decide, by decide, by decide,
      (((parseDate_amended "xx-02-16".toList).1 (by decide)).2
        "xx".toList "02".toList "16".toList (by decide)).1 (Or.inl (by decide))⟩,
    ⟨by decide, by decide, by decide, by decide, by decide, by decide,
      (((parseDate_amended "2026-02-16".toList).1 (by decide)).2
        "2026".toList "02".toList "16".toList (by decide)).2
        2026 2 16 (by decide) (by decide) (by decide) (by decide)⟩⟩
